import Mathlib

/-!
# gosi: the topic-room relay of `main.go`

A shallow embedding of `handleConnection` (src/main.go, lines 34-115) and of the
shared `connections` map it mutates, followed by theorems about the room
registry and the per-connection message loop.

* A Go `map` is an association list read at its first matching key; iteration
  order of `range` is an explicit parameter.
* A `*websocket.Conn` is a natural number (pointer identity).
* Everything the handler does to the outside world is recorded, in program
  order, as a list of `Ev` effects.
* The outcomes the handler cannot control (write errors, publish errors, the
  order in which `range` yields the keys) are the fields of `Env`.
-/

namespace Gosi

/-! ## Go maps as association lists -/

/-- Lookup `m[k]` with the comma-ok result: `none` when the key is absent. -/
def mapGet {κ ν : Type} [DecidableEq κ] : List (κ × ν) → κ → Option ν
  | [], _ => none
  | (k, v) :: rest, key => if k = key then some v else mapGet rest key

/-- Assignment `m[k] = v`: overwrites the entry of an existing key, adds one otherwise. -/
def mapSet {κ ν : Type} [DecidableEq κ] : List (κ × ν) → κ → ν → List (κ × ν)
  | [], key, val => [(key, val)]
  | (k, v) :: rest, key, val =>
    if k = key then (key, val) :: rest else (k, v) :: mapSet rest key val

/-- Builtin `delete(m, k)`: no entry of key `k` remains; a no-op when absent. -/
def mapDelete {κ ν : Type} [DecidableEq κ] : List (κ × ν) → κ → List (κ × ν)
  | [], _ => []
  | (k, v) :: rest, key =>
    if k = key then mapDelete rest key else (k, v) :: mapDelete rest key

/-- Keys of a map, in representation order. -/
def mapKeys {κ ν : Type} (m : List (κ × ν)) : List κ :=
  m.map Prod.fst

/-! ## Data model (main.go lines 21-32) -/

/-- A `*websocket.Conn`, identified by its address. -/
abbrev Conn := Nat

/-- The inner map `map[*websocket.Conn]string`: participant to username. -/
abbrev Room := List (Conn × String)

/-- The global `connections`: `map[string]map[*websocket.Conn]string`. -/
abbrev Registry := List (String × Room)

/-- The wire struct `Message` (fields `Type`, `Topic`, `Username`, `Data`). -/
structure Message where
  type : String
  topic : String
  username : String
  data : String
deriving DecidableEq, Repr

/-- The value `connections[topic]` used as a map: a nil map reads as the empty map. -/
def room (connections : Registry) (topic : String) : Room :=
  (mapGet connections topic).getD []

/-- The connections registered under a topic (keys of `connections[topic]`). -/
def participants (connections : Registry) (topic : String) : List Conn :=
  mapKeys (room connections topic)

/-- The expression `connections[topic][conn]`: the zero value `""` when absent. -/
def usernameOf (connections : Registry) (topic : String) (conn : Conn) : String :=
  (mapGet (room connections topic) conn).getD ""

/-- The statement `connections[topic][conn] = name` on a non-nil inner map (maps are
references, so the registry sees the update). -/
def assign (connections : Registry) (topic : String) (conn : Conn) (name : String) : Registry :=
  mapSet connections topic (mapSet (room connections topic) conn name)

/-- The statement `delete(connections[topic], conn)`: nothing happens on a nil inner map. -/
def remove (connections : Registry) (topic : String) (conn : Conn) : Registry :=
  match mapGet connections topic with
  | none => connections
  | some r => mapSet connections topic (mapDelete r conn)

/-- Lines 72-74: `if connections[topic] == nil { connections[topic] = make(...) }`. -/
def ensureRoom (connections : Registry) (topic : String) : Registry :=
  match mapGet connections topic with
  | none => mapSet connections topic []
  | some _ => connections

/-! ## Effects and environment -/

/-- Observable effects of a handler, in program order. -/
inductive Ev where
  /-- The call `mutex.Lock()`. -/
  | lock
  /-- The call `mutex.Unlock()`. -/
  | unlock
  /-- A read of the shared map under the given topic key. -/
  | mapRead (topic : String)
  /-- A write (insert, assign or delete) to the shared map under the given topic key. -/
  | mapWrite (topic : String)
  /-- The call `c.WriteJSON(m)`, whatever its outcome. -/
  | writeJSON (c : Conn) (m : Message)
  /-- The call `c.Close()`. -/
  | close (c : Conn)
  /-- The call `producer.SendMessage` with the given topic and value. -/
  | sendMessage (topic : String) (value : String)
  /-- The call `fmt.Println` with the given leading text. -/
  | println (text : String)
deriving DecidableEq, Repr

/-- What the handler cannot control during one loop iteration. -/
structure Env where
  /-- Whether `producer.SendMessage` returns a nil error. -/
  publishOk : Bool
  /-- Whether `WriteJSON` on the given connection returns a nil error. -/
  writeOk : Conn → Bool
  /-- The order in which `range connections[currentTopic]` yields the keys. -/
  order : List Conn

/-- Outcome of `conn.ReadMessage()` followed by `json.Unmarshal`. -/
inductive Input where
  /-- The call `ReadMessage` returned an error (line 46). -/
  | readError
  /-- The call `json.Unmarshal` returned an error (line 58). -/
  | malformed
  /-- The frame parsed into the given `Message`. -/
  | parsed (message : Message)
deriving DecidableEq, Repr

/-- State after one iteration of the `for` loop of `handleConnection`. -/
structure Result where
  /-- The shared map afterwards. -/
  connections : Registry
  /-- The local `currentTopic` afterwards. -/
  currentTopic : String
  /-- Effects of the iteration, in order; on exit the deferred `conn.Close()` is last. -/
  trace : List Ev
  /-- Whether the loop goes on: `false` after `break` or `return`. -/
  running : Bool
deriving DecidableEq, Repr

/-- The reply `Message{Type: "error", Data: reason}`. -/
def errorMessage (reason : String) : Message :=
  ⟨"error", "", "", reason⟩

/-- The `range` loop of lines 105-111, over the keys in the order given. The username is
re-read from the map at every iteration (line 106). -/
def broadcast (currentTopic : String) (conn : Conn) (data : String) (writeOk : Conn → Bool) :
    List Conn → Registry → Registry × List Ev
  | [], connections => (connections, [])
  | client :: rest, connections =>
    let m : Message := ⟨"message", "", usernameOf connections currentTopic conn, data⟩
    if writeOk client then
      let r := broadcast currentTopic conn data writeOk rest connections
      (r.1, Ev.mapRead currentTopic :: Ev.writeJSON client m :: r.2)
    else
      let r := broadcast currentTopic conn data writeOk rest (remove connections currentTopic client)
      (r.1, Ev.mapRead currentTopic :: Ev.writeJSON client m
        :: Ev.println "Error while sending message to client:"
        :: Ev.mapRead currentTopic :: Ev.mapWrite currentTopic :: Ev.close client :: r.2)

/-- One iteration of the `for` loop of `handleConnection` (lines 45-113) for connection
`conn`, from the shared map `connections` and the local `currentTopic`. -/
def loopBody (conn : Conn) (env : Env) (connections : Registry) (currentTopic : String) :
    Input → Result
  | Input.readError =>
    if currentTopic ≠ "" then
      ⟨remove connections currentTopic conn, currentTopic,
        [Ev.println "Error while reading message:", Ev.lock, Ev.mapRead currentTopic,
          Ev.mapWrite currentTopic, Ev.unlock, Ev.close conn], false⟩
    else
      ⟨connections, currentTopic,
        [Ev.println "Error while reading message:", Ev.close conn], false⟩
  | Input.malformed =>
    ⟨connections, currentTopic, [Ev.println "Error while unmarshaling message:"], true⟩
  | Input.parsed message =>
    if message.type = "setTopic" then
      if 2 ≤ (room connections message.topic).length then
        ⟨connections, currentTopic,
          [Ev.lock, Ev.mapRead message.topic, Ev.writeJSON conn (errorMessage "Topic is full"),
            Ev.close conn, Ev.unlock, Ev.close conn], false⟩
      else
        ⟨assign (ensureRoom connections message.topic) message.topic conn "", message.topic,
          [Ev.lock, Ev.mapRead message.topic, Ev.mapRead message.topic]
            ++ (if (mapGet connections message.topic).isNone
                then [Ev.mapWrite message.topic] else [])
            ++ [Ev.mapWrite message.topic, Ev.unlock], true⟩
    else if message.type = "setUsername" then
      if (mapGet (room connections message.topic) conn).isSome then
        ⟨assign connections message.topic conn message.data, currentTopic,
          [Ev.lock, Ev.mapRead message.topic, Ev.mapWrite message.topic, Ev.unlock], true⟩
      else
        ⟨connections, currentTopic,
          [Ev.lock, Ev.mapRead message.topic,
            Ev.writeJSON conn (errorMessage "Set a topic first"),
            Ev.close conn, Ev.unlock, Ev.close conn], false⟩
    else if message.type = "message" then
      if currentTopic = "" then
        ⟨connections, currentTopic,
          [Ev.writeJSON conn (errorMessage "Set a topic first")], true⟩
      else
        let publish : List Ev :=
          [Ev.mapRead currentTopic,
            Ev.sendMessage currentTopic
              (usernameOf connections currentTopic conn ++ ": " ++ message.data)]
            ++ (if env.publishOk then [] else [Ev.println "Error while producing message:"])
        let r := broadcast currentTopic conn message.data env.writeOk env.order connections
        ⟨r.1, currentTopic,
          publish ++ [Ev.lock, Ev.mapRead currentTopic] ++ r.2 ++ [Ev.unlock], true⟩
    else
      ⟨connections, currentTopic, [], true⟩

/-- The `for` loop of `handleConnection` run on the given successive reads, from a given
shared map and local `currentTopic`; it stops at the first `break` or `return`. -/
def handlerLoop (conn : Conn) : List (Env × Input) → Registry → String → Result
  | [], connections, currentTopic => ⟨connections, currentTopic, [], true⟩
  | (env, input) :: rest, connections, currentTopic =>
    let r := loopBody conn env connections currentTopic input
    if r.running then
      let r2 := handlerLoop conn rest r.connections r.currentTopic
      ⟨r2.connections, r2.currentTopic, r.trace ++ r2.trace, r2.running⟩
    else r

/-- The handler `handleConnection` after a successful upgrade: `currentTopic` starts as the
empty string (line 42). -/
def handleConnection (conn : Conn) (reads : List (Env × Input)) (connections : Registry) :
    Result :=
  handlerLoop conn reads connections ""

/-! ## Reading a trace -/

/-- The `WriteJSON` calls of a trace, in order. -/
def writes : List Ev → List (Conn × Message)
  | [] => []
  | Ev.writeJSON c m :: rest => (c, m) :: writes rest
  | _ :: rest => writes rest

/-- The `producer.SendMessage` calls of a trace, as (topic, value), in order. -/
def publishes : List Ev → List (String × String)
  | [] => []
  | Ev.sendMessage t v :: rest => (t, v) :: publishes rest
  | _ :: rest => publishes rest

/-- The connections on which a trace calls `Close`, in order. -/
def closes : List Ev → List Conn
  | [] => []
  | Ev.close c :: rest => c :: closes rest
  | _ :: rest => closes rest

/-- The messages a trace writes to one connection, in order. -/
def writesTo (c : Conn) (trace : List Ev) : List Message :=
  ((writes trace).filter (fun p => decide (p.1 = c))).map Prod.snd

/-- A possible `range` order over `connections[topic]`: every key once. -/
def RangeOrder (connections : Registry) (topic : String) (order : List Conn) : Prop :=
  order.Nodup ∧ (∀ c ∈ order, c ∈ participants connections topic)
    ∧ (∀ c ∈ participants connections topic, c ∈ order)

instance (connections : Registry) (topic : String) (order : List Conn) :
    Decidable (RangeOrder connections topic order) := by
  unfold RangeOrder; infer_instance

/-! ## All handlers together -/

/-- Local state of one handler goroutine. -/
structure Session where
  /-- The local variable `currentTopic`. -/
  currentTopic : String
  /-- Whether the handler is still in its loop. -/
  running : Bool
deriving DecidableEq, Repr

/-- The shared map together with the local state of every handler. -/
structure World where
  /-- The global `connections`. -/
  connections : Registry
  /-- The handler of each connection. -/
  sessions : Conn → Session

/-- Process start: an empty map, every handler at the top of its loop with no topic. -/
def World.init : World :=
  ⟨[], fun _ => ⟨"", true⟩⟩

/-- One scheduled loop iteration of one handler, its critical section taken as atomic. -/
structure Action where
  /-- The connection whose handler runs. -/
  conn : Conn
  /-- What the handler cannot control during the iteration. -/
  env : Env
  /-- What the handler reads. -/
  input : Input

/-- The world after the given handler iteration, with the effects it emitted. The whole
iteration is one step: its critical section is atomic, and what it does outside the lock
(the username read of line 97, the publish, the reply of line 91) writes nothing to the
shared map. -/
def World.step (w : World) (a : Action) : World × List Ev :=
  let r := loopBody a.conn a.env w.connections (w.sessions a.conn).currentTopic a.input
  (⟨r.connections, fun c => if c = a.conn then ⟨r.currentTopic, r.running⟩ else w.sessions c⟩,
    r.trace)

/-- An iteration that can happen: the handler is still in its loop and the `range` order
is one of the room it would iterate. Inputs and write or publish outcomes are free: a
client may send anything or disconnect at any time, and any write may fail. -/
def Enabled (w : World) (a : Action) : Prop :=
  (w.sessions a.conn).running = true
    ∧ RangeOrder w.connections (w.sessions a.conn).currentTopic a.env.order

instance (w : World) (a : Action) : Decidable (Enabled w a) := by
  unfold Enabled; infer_instance

/-- The worlds reachable from process start by any interleaving of handler iterations. -/
inductive Reachable : World → Prop where
  | init : Reachable World.init
  | step (w : World) (a : Action) : Reachable w → Enabled w a → Reachable (w.step a).1

/-- The handler iterations of a schedule run in order: the final world and all effects. -/
def World.run : World → List Action → World × List Ev
  | w, [] => (w, [])
  | w, a :: rest =>
    let s := w.step a
    let r := World.run s.1 rest
    (r.1, s.2 ++ r.2)

/-- The frame `{"type": "setTopic", "topic": topic}` read by `conn`. -/
def joinAction (topic : String) (env : Env) (conn : Conn) : Action :=
  ⟨conn, env, Input.parsed ⟨"setTopic", topic, "", ""⟩⟩

/-- Every room has duplicate-free keys and at most two entries. -/
def RoomsBounded (connections : Registry) : Prop :=
  ∀ t, (participants connections t).Nodup ∧ (room connections t).length ≤ 2

/-! ## Example worlds -/

/-- An environment in which the publish and every write succeed, with the given `range`
order. -/
def Env.allOk (order : List Conn) : Env :=
  ⟨true, fun _ => true, order⟩

/-- The world after connections 1 and 2 have joined "T" from process start. -/
def World.pair : World :=
  ((World.init.step (joinAction "T" (Env.allOk []) 1)).1.step
    (joinAction "T" (Env.allOk []) 2)).1

/-- The world after connection 1 has joined the empty topic from process start and named
itself "alice" there. -/
def World.emptyNamed : World :=
  ((World.init.step (joinAction "" (Env.allOk []) 1)).1.step
    ⟨1, Env.allOk [1], Input.parsed ⟨"setUsername", "", "", "alice"⟩⟩).1

/-- The world after connections 1 and 2 have joined the empty topic from process start. -/
def World.emptyPair : World :=
  ((World.init.step (joinAction "" (Env.allOk []) 1)).1.step
    (joinAction "" (Env.allOk [1]) 2)).1

/-! ## The mutex along a trace -/

/-- Whether the mutex is held after a trace, given whether it was held before. -/
def lockAfter : Bool → List Ev → Bool
  | held, [] => held
  | _, Ev.lock :: rest => lockAfter true rest
  | _, Ev.unlock :: rest => lockAfter false rest
  | held, _ :: rest => lockAfter held rest

/-- Whether every read and write of the shared map in a trace happens while the mutex is
held, given whether it was held before. -/
def accessesLocked : Bool → List Ev → Bool
  | _, [] => true
  | _, Ev.lock :: rest => accessesLocked true rest
  | _, Ev.unlock :: rest => accessesLocked false rest
  | held, Ev.mapRead _ :: rest => held && accessesLocked held rest
  | held, Ev.mapWrite _ :: rest => held && accessesLocked held rest
  | held, _ :: rest => accessesLocked held rest

/-- The `WriteJSON` and `SendMessage` calls of a trace made while the mutex is held, given
whether it was held before. -/
def ioWhileLocked : Bool → List Ev → List Ev
  | _, [] => []
  | _, Ev.lock :: rest => ioWhileLocked true rest
  | _, Ev.unlock :: rest => ioWhileLocked false rest
  | held, Ev.writeJSON c m :: rest =>
    if held then Ev.writeJSON c m :: ioWhileLocked held rest else ioWhileLocked held rest
  | held, Ev.sendMessage t v :: rest =>
    if held then Ev.sendMessage t v :: ioWhileLocked held rest else ioWhileLocked held rest
  | held, _ :: rest => ioWhileLocked held rest

/-! ## Schedules -/

/-- Whether `c` is registered under some topic other than `t`. -/
def registeredElsewhere (connections : Registry) (c : Conn) (t : String) : Bool :=
  (mapKeys connections).any
    (fun q => decide (q ≠ t) && decide (c ∈ participants connections q))

/-- Whether the iteration is an accepted `setTopic` (lines 72-77 are reached) read from a
connection that is at that moment registered under a different topic. -/
def switchesTopic (w : World) (a : Action) : Bool :=
  match a.input with
  | Input.parsed message =>
    decide (message.type = "setTopic")
      && decide ((room w.connections message.topic).length < 2)
      && registeredElsewhere w.connections a.conn message.topic
  | _ => false

/-- Whether no iteration of a schedule, run from the given world, is such a switch. -/
def noSwitch : World → List Action → Bool
  | _, [] => true
  | w, a :: rest => !(switchesTopic w a) && noSwitch (w.step a).1 rest

/-! ## Facts about the map operations -/

section MapFacts

variable {κ ν : Type} [DecidableEq κ]

theorem mapGet_mapSet_self (m : List (κ × ν)) (k : κ) (v : ν) :
    mapGet (mapSet m k v) k = some v := by
  induction m with
  | nil => simp [mapSet, mapGet]
  | cons p rest ih =>
    obtain ⟨a, b⟩ := p
    by_cases h : a = k
    · simp [mapSet, mapGet, h]
    · simp [mapSet, mapGet, h, ih]

theorem mapGet_mapSet_of_ne (m : List (κ × ν)) {k q : κ} (v : ν) (h : q ≠ k) :
    mapGet (mapSet m k v) q = mapGet m q := by
  have h2 : ¬ k = q := fun e => h e.symm
  induction m with
  | nil => simp [mapSet, mapGet, h2]
  | cons p rest ih =>
    obtain ⟨a, b⟩ := p
    by_cases hak : a = k
    · subst hak
      simp [mapSet, mapGet, h2]
    · by_cases haq : a = q
      · subst haq
        simp [mapSet, mapGet, hak]
      · simp [mapSet, mapGet, hak, haq, ih]

theorem mapGet_mapDelete_self (m : List (κ × ν)) (k : κ) :
    mapGet (mapDelete m k) k = none := by
  induction m with
  | nil => simp [mapDelete, mapGet]
  | cons p rest ih =>
    obtain ⟨a, b⟩ := p
    by_cases h : a = k
    · simp [mapDelete, h, ih]
    · simp [mapDelete, h, mapGet, ih]

theorem mapGet_mapDelete_of_ne (m : List (κ × ν)) {k q : κ} (h : q ≠ k) :
    mapGet (mapDelete m k) q = mapGet m q := by
  have h2 : ¬ k = q := fun e => h e.symm
  induction m with
  | nil => simp [mapDelete, mapGet]
  | cons p rest ih =>
    obtain ⟨a, b⟩ := p
    by_cases hak : a = k
    · subst hak
      simp [mapDelete, mapGet, h2, ih]
    · by_cases haq : a = q
      · subst haq
        simp [mapDelete, hak, mapGet]
      · simp [mapDelete, hak, mapGet, haq, ih]

theorem mem_mapKeys_iff (m : List (κ × ν)) (k : κ) :
    k ∈ mapKeys m ↔ (mapGet m k).isSome = true := by
  induction m with
  | nil => simp [mapKeys, mapGet]
  | cons p rest ih =>
    obtain ⟨a, b⟩ := p
    have ih2 : k ∈ List.map Prod.fst rest ↔ (mapGet rest k).isSome = true := ih
    by_cases h : a = k
    · simp [mapKeys, mapGet, h]
    · have h2 : ¬ k = a := fun e => h e.symm
      simp only [mapKeys, List.map_cons, List.mem_cons, mapGet, h, h2, if_false, false_or]
      exact ih2

theorem mapGet_eq_none_iff (m : List (κ × ν)) (k : κ) :
    mapGet m k = none ↔ k ∉ mapKeys m := by
  rw [mem_mapKeys_iff]
  cases mapGet m k <;> simp

theorem mapKeys_mapSet_of_mem (m : List (κ × ν)) {k : κ} (v : ν) (h : k ∈ mapKeys m) :
    mapKeys (mapSet m k v) = mapKeys m := by
  induction m with
  | nil => simp [mapKeys] at h
  | cons p rest ih =>
    obtain ⟨a, b⟩ := p
    by_cases hak : a = k
    · simp [mapSet, mapKeys, hak]
    · have h2 : k ∈ mapKeys rest := by
        simp only [mapKeys, List.map_cons, List.mem_cons] at h
        rcases h with e | e
        · exact absurd e.symm hak
        · exact e
      have ih2 := ih h2
      simp only [mapKeys] at ih2
      simp [mapSet, mapKeys, hak, ih2]

theorem mapKeys_mapSet_of_not_mem (m : List (κ × ν)) {k : κ} (v : ν) (h : k ∉ mapKeys m) :
    mapKeys (mapSet m k v) = mapKeys m ++ [k] := by
  induction m with
  | nil => simp [mapSet, mapKeys]
  | cons p rest ih =>
    obtain ⟨a, b⟩ := p
    simp only [mapKeys, List.map_cons, List.mem_cons, not_or] at h
    have hak : ¬ a = k := fun e => h.1 e.symm
    have ih2 := ih h.2
    simp only [mapKeys] at ih2
    simp [mapSet, mapKeys, hak, ih2]

theorem mapKeys_mapDelete_sublist (m : List (κ × ν)) (k : κ) :
    (mapKeys (mapDelete m k)).Sublist (mapKeys m) := by
  induction m with
  | nil => simp [mapDelete, mapKeys]
  | cons p rest ih =>
    obtain ⟨a, b⟩ := p
    simp only [mapKeys] at ih
    by_cases hak : a = k
    · simpa [mapDelete, mapKeys, hak] using ih.trans (List.sublist_cons_self _ _)
    · simpa [mapDelete, mapKeys, hak] using ih

theorem mem_mapKeys_mapDelete (m : List (κ × ν)) (k q : κ) :
    q ∈ mapKeys (mapDelete m k) ↔ q ∈ mapKeys m ∧ q ≠ k := by
  rw [mem_mapKeys_iff, mem_mapKeys_iff]
  by_cases h : q = k
  · subst h
    simp [mapGet_mapDelete_self]
  · rw [mapGet_mapDelete_of_ne m h]
    simp [h]

theorem mem_mapKeys_mapSet (m : List (κ × ν)) (k q : κ) (v : ν) :
    q ∈ mapKeys (mapSet m k v) ↔ q ∈ mapKeys m ∨ q = k := by
  by_cases h : k ∈ mapKeys m
  · rw [mapKeys_mapSet_of_mem m v h]
    constructor
    · exact Or.inl
    · rintro (e | e)
      · exact e
      · exact e ▸ h
  · rw [mapKeys_mapSet_of_not_mem m v h]
    simp

theorem mapSet_nodup (m : List (κ × ν)) (k : κ) (v : ν) (h : (mapKeys m).Nodup) :
    (mapKeys (mapSet m k v)).Nodup := by
  by_cases hk : k ∈ mapKeys m
  · rw [mapKeys_mapSet_of_mem m v hk]; exact h
  · rw [mapKeys_mapSet_of_not_mem m v hk]
    exact List.Nodup.append h (List.nodup_singleton k) (by simpa using hk)

theorem mapSet_length_le (m : List (κ × ν)) (k : κ) (v : ν) :
    (mapSet m k v).length ≤ m.length + 1 := by
  induction m with
  | nil => simp [mapSet]
  | cons p rest ih =>
    obtain ⟨a, b⟩ := p
    by_cases hak : a = k
    · simp [mapSet, hak]
    · simp [mapSet, hak, ih]

theorem mapSet_length_of_mem (m : List (κ × ν)) {k : κ} (v : ν) (h : k ∈ mapKeys m) :
    (mapSet m k v).length = m.length := by
  have e := congrArg List.length (mapKeys_mapSet_of_mem m v h)
  simpa [mapKeys] using e

theorem mapSet_length_of_not_mem (m : List (κ × ν)) {k : κ} (v : ν) (h : k ∉ mapKeys m) :
    (mapSet m k v).length = m.length + 1 := by
  have e := congrArg List.length (mapKeys_mapSet_of_not_mem m v h)
  simpa [mapKeys] using e

theorem mapDelete_length_le (m : List (κ × ν)) (k : κ) :
    (mapDelete m k).length ≤ m.length := by
  have e := (mapKeys_mapDelete_sublist m k).length_le
  simpa [mapKeys] using e

theorem mapDelete_nodup (m : List (κ × ν)) (k : κ) (h : (mapKeys m).Nodup) :
    (mapKeys (mapDelete m k)).Nodup :=
  h.sublist (mapKeys_mapDelete_sublist m k)

theorem mapDelete_of_not_mem (m : List (κ × ν)) {k : κ} (h : k ∉ mapKeys m) :
    mapDelete m k = m := by
  induction m with
  | nil => simp [mapDelete]
  | cons p rest ih =>
    obtain ⟨a, b⟩ := p
    simp only [mapKeys, List.map_cons, List.mem_cons, not_or] at h
    have hak : ¬ a = k := fun e => h.1 e.symm
    have ih2 := ih h.2
    simp [mapDelete, hak, ih2]

end MapFacts

/-! ## Facts about the registry operations -/

theorem mapGet_assign (connections : Registry) (t q : String) (c : Conn) (u : String) :
    mapGet (assign connections t c u) q
      = if q = t then some (mapSet (room connections t) c u) else mapGet connections q := by
  by_cases h : q = t
  · subst h
    simp [assign, mapGet_mapSet_self]
  · simp [assign, h, mapGet_mapSet_of_ne connections _ h]

theorem room_assign (connections : Registry) (t q : String) (c : Conn) (u : String) :
    room (assign connections t c u) q
      = if q = t then mapSet (room connections t) c u else room connections q := by
  by_cases h : q = t
  · simp [room, mapGet_assign, h]
  · simp [room, mapGet_assign, h]

theorem mapGet_remove_of_ne (connections : Registry) {t q : String} (c : Conn) (h : q ≠ t) :
    mapGet (remove connections t c) q = mapGet connections q := by
  unfold remove
  cases mapGet connections t with
  | none => rfl
  | some r => exact mapGet_mapSet_of_ne connections _ h

theorem room_remove (connections : Registry) (t q : String) (c : Conn) :
    room (remove connections t c) q
      = if q = t then mapDelete (room connections t) c else room connections q := by
  by_cases h : q = t
  · subst h
    unfold remove
    cases hg : mapGet connections q with
    | none => simp [room, hg, mapDelete]
    | some r => simp [room, hg, mapGet_mapSet_self]
  · simp [room, h, mapGet_remove_of_ne connections c h]

theorem mapGet_ensureRoom_of_ne (connections : Registry) {t q : String} (h : q ≠ t) :
    mapGet (ensureRoom connections t) q = mapGet connections q := by
  unfold ensureRoom
  cases mapGet connections t with
  | none => exact mapGet_mapSet_of_ne connections _ h
  | some r => rfl

theorem room_ensureRoom (connections : Registry) (t q : String) :
    room (ensureRoom connections t) q = room connections q := by
  by_cases h : q = t
  · subst h
    unfold ensureRoom
    cases hg : mapGet connections q with
    | none => simp [room, hg, mapGet_mapSet_self]
    | some r => simp [room, hg]
  · simp [room, mapGet_ensureRoom_of_ne connections h]

theorem length_participants (connections : Registry) (t : String) :
    (participants connections t).length = (room connections t).length := by
  simp [participants, mapKeys]

theorem usernameOf_remove_of_ne (connections : Registry) (t : String) {c x : Conn}
    (h : c ≠ x) : usernameOf (remove connections t x) t c = usernameOf connections t c := by
  simp [usernameOf, room_remove, mapGet_mapDelete_of_ne _ h]

/-! ## Facts about traces -/

theorem writes_append (a b : List Ev) : writes (a ++ b) = writes a ++ writes b := by
  induction a with
  | nil => rfl
  | cons e rest ih => cases e <;> simp [writes, ih]

theorem publishes_append (a b : List Ev) :
    publishes (a ++ b) = publishes a ++ publishes b := by
  induction a with
  | nil => rfl
  | cons e rest ih => cases e <;> simp [publishes, ih]

theorem closes_append (a b : List Ev) : closes (a ++ b) = closes a ++ closes b := by
  induction a with
  | nil => rfl
  | cons e rest ih => cases e <;> simp [closes, ih]

theorem writesTo_append (c : Conn) (a b : List Ev) :
    writesTo c (a ++ b) = writesTo c a ++ writesTo c b := by
  simp [writesTo, writes_append]

/-! ## Facts about the broadcast loop -/

section Broadcast

variable (cur : String) (conn : Conn) (data : String) (ok : Conn → Bool)

theorem broadcast_nil (connections : Registry) :
    broadcast cur conn data ok [] connections = (connections, []) := rfl

theorem broadcast_cons_ok (client : Conn) (rest : List Conn) (connections : Registry)
    (h : ok client = true) :
    broadcast cur conn data ok (client :: rest) connections
      = ((broadcast cur conn data ok rest connections).1,
          Ev.mapRead cur
            :: Ev.writeJSON client ⟨"message", "", usernameOf connections cur conn, data⟩
            :: (broadcast cur conn data ok rest connections).2) := by
  simp [broadcast, h]

theorem broadcast_cons_fail (client : Conn) (rest : List Conn) (connections : Registry)
    (h : ok client = false) :
    broadcast cur conn data ok (client :: rest) connections
      = ((broadcast cur conn data ok rest (remove connections cur client)).1,
          Ev.mapRead cur
            :: Ev.writeJSON client ⟨"message", "", usernameOf connections cur conn, data⟩
            :: Ev.println "Error while sending message to client:"
            :: Ev.mapRead cur :: Ev.mapWrite cur :: Ev.close client
            :: (broadcast cur conn data ok rest (remove connections cur client)).2) := by
  simp [broadcast, h]

/-- Whatever a `delete` preserves, the whole loop preserves. -/
theorem broadcast_preserves (P : Registry → Prop)
    (hstep : ∀ (r : Registry) (c : Conn), P r → P (remove r cur c))
    (order : List Conn) (connections : Registry) (h : P connections) :
    P (broadcast cur conn data ok order connections).1 := by
  induction order generalizing connections with
  | nil => exact h
  | cons client rest ih =>
    cases hc : ok client with
    | true => rw [broadcast_cons_ok cur conn data ok client rest connections hc]; exact ih _ h
    | false =>
      rw [broadcast_cons_fail cur conn data ok client rest connections hc]
      exact ih _ (hstep _ _ h)

theorem broadcast_other_topic (order : List Conn) (connections : Registry) {q : String}
    (h : q ≠ cur) :
    mapGet (broadcast cur conn data ok order connections).1 q = mapGet connections q :=
  broadcast_preserves cur conn data ok (fun r => mapGet r q = mapGet connections q)
    (fun r c hr => (mapGet_remove_of_ne r c h).trans hr) order connections rfl

theorem broadcast_entry (order : List Conn) (connections : Registry) (x : Conn) :
    mapGet (room (broadcast cur conn data ok order connections).1 cur) x
      = if x ∈ order ∧ ok x = false then none else mapGet (room connections cur) x := by
  induction order generalizing connections with
  | nil => simp [broadcast_nil]
  | cons client rest ih =>
    cases hc : ok client with
    | true =>
      rw [broadcast_cons_ok cur conn data ok client rest connections hc, ih]
      by_cases hx : x = client
      · subst hx
        simp [hc]
      · simp [hx]
    | false =>
      rw [broadcast_cons_fail cur conn data ok client rest connections hc, ih]
      by_cases hx : x = client
      · subst hx
        simp [hc, room_remove, mapGet_mapDelete_self]
      · simp [hx, room_remove, mapGet_mapDelete_of_ne _ hx]

theorem broadcast_participants (order : List Conn) (connections : Registry) (x : Conn) :
    x ∈ participants (broadcast cur conn data ok order connections).1 cur
      ↔ x ∈ participants connections cur ∧ ¬ (x ∈ order ∧ ok x = false) := by
  unfold participants
  rw [mem_mapKeys_iff, mem_mapKeys_iff, broadcast_entry]
  by_cases h : x ∈ order ∧ ok x = false
  · simp [h]
  · simp [h]

theorem broadcast_all_ok (order : List Conn) (connections : Registry)
    (h : ∀ c ∈ order, ok c = true) :
    (broadcast cur conn data ok order connections).1 = connections
      ∧ writes (broadcast cur conn data ok order connections).2
          = order.map (fun c => (c, ⟨"message", "", usernameOf connections cur conn, data⟩)) := by
  induction order with
  | nil => simp [broadcast_nil, writes]
  | cons client rest ih =>
    have hc : ok client = true := h client (List.mem_cons_self _ _)
    have ih2 := ih (fun c hcm => h c (List.mem_cons_of_mem _ hcm))
    rw [broadcast_cons_ok cur conn data ok client rest connections hc]
    simp [writes, ih2.1, ih2.2]

theorem broadcast_publishes (order : List Conn) (connections : Registry) :
    publishes (broadcast cur conn data ok order connections).2 = [] := by
  induction order generalizing connections with
  | nil => rfl
  | cons client rest ih =>
    cases hc : ok client with
    | true =>
      rw [broadcast_cons_ok cur conn data ok client rest connections hc]
      simp [publishes, ih]
    | false =>
      rw [broadcast_cons_fail cur conn data ok client rest connections hc]
      simp [publishes, ih]

theorem broadcast_write_targets (order : List Conn) (connections : Registry) :
    (writes (broadcast cur conn data ok order connections).2).map Prod.fst = order := by
  induction order generalizing connections with
  | nil => rfl
  | cons client rest ih =>
    cases hc : ok client with
    | true =>
      rw [broadcast_cons_ok cur conn data ok client rest connections hc]
      simp [writes, ih]
    | false =>
      rw [broadcast_cons_fail cur conn data ok client rest connections hc]
      simp [writes, ih]

theorem broadcast_write_shape (order : List Conn) (connections : Registry) :
    ∀ p ∈ writes (broadcast cur conn data ok order connections).2,
      p.2.type = "message" ∧ p.2.topic = "" ∧ p.2.data = data := by
  induction order generalizing connections with
  | nil => intro p hp; simp [broadcast_nil, writes] at hp
  | cons client rest ih =>
    intro p hp
    cases hc : ok client with
    | true =>
      rw [broadcast_cons_ok cur conn data ok client rest connections hc] at hp
      simp only [writes, List.mem_cons] at hp
      rcases hp with e | e
      · subst e; simp
      · exact ih _ p e
    | false =>
      rw [broadcast_cons_fail cur conn data ok client rest connections hc] at hp
      simp only [writes, List.mem_cons] at hp
      rcases hp with e | e
      · subst e; simp
      · exact ih _ p e

theorem broadcast_closes (order : List Conn) (connections : Registry) :
    closes (broadcast cur conn data ok order connections).2
      = order.filter (fun c => !(ok c)) := by
  induction order generalizing connections with
  | nil => rfl
  | cons client rest ih =>
    cases hc : ok client with
    | true =>
      rw [broadcast_cons_ok cur conn data ok client rest connections hc]
      simp [closes, ih, hc]
    | false =>
      rw [broadcast_cons_fail cur conn data ok client rest connections hc]
      simp [closes, ih, hc]

end Broadcast

/-- The messages written to `c` by a trace whose write targets are duplicate-free: exactly
one when `c` is a target. -/
theorem writesTo_length_of_nodup (c : Conn) (trace : List Ev)
    (h : ((writes trace).map Prod.fst).Nodup) (hc : c ∈ (writes trace).map Prod.fst) :
    (writesTo c trace).length = 1 := by
  unfold writesTo
  generalize writes trace = ws at h hc
  induction ws with
  | nil => simp at hc
  | cons p rest ih =>
    obtain ⟨a, m⟩ := p
    simp only [List.map_cons, List.nodup_cons] at h
    by_cases hac : a = c
    · subst hac
      have hnone : List.filter (fun p => decide (p.1 = a)) rest = [] := by
        rw [List.filter_eq_nil_iff]
        intro q hq hqa
        have : q.1 = a := by simpa using hqa
        exact h.1 (this ▸ List.mem_map_of_mem Prod.fst hq)
      simp [List.filter_cons, hnone]
    · have hc2 : c ∈ rest.map Prod.fst := by
        simp only [List.map_cons, List.mem_cons] at hc
        rcases hc with e | e
        · exact absurd e.symm hac
        · exact e
      simpa [List.filter_cons, hac] using ih h.2 hc2

theorem writesTo_of_not_target (c : Conn) (trace : List Ev)
    (hc : c ∉ (writes trace).map Prod.fst) : writesTo c trace = [] := by
  unfold writesTo
  rw [List.map_eq_nil_iff, List.filter_eq_nil_iff]
  intro q hq hqa
  have : q.1 = c := by simpa using hqa
  exact hc (this ▸ List.mem_map_of_mem Prod.fst hq)

/-! ## The branches of the loop body -/

section Branches

variable (conn : Conn) (env : Env) (connections : Registry) (currentTopic : String)
  (message : Message)

theorem loopBody_setTopic_full (hType : message.type = "setTopic")
    (hFull : 2 ≤ (room connections message.topic).length) :
    loopBody conn env connections currentTopic (Input.parsed message)
      = ⟨connections, currentTopic,
          [Ev.lock, Ev.mapRead message.topic, Ev.writeJSON conn (errorMessage "Topic is full"),
            Ev.close conn, Ev.unlock, Ev.close conn], false⟩ := by
  simp [loopBody, hType, hFull]

theorem loopBody_setTopic_join (hType : message.type = "setTopic")
    (hRoom : (room connections message.topic).length < 2) :
    loopBody conn env connections currentTopic (Input.parsed message)
      = ⟨assign (ensureRoom connections message.topic) message.topic conn "", message.topic,
          [Ev.lock, Ev.mapRead message.topic, Ev.mapRead message.topic]
            ++ (if (mapGet connections message.topic).isNone
                then [Ev.mapWrite message.topic] else [])
            ++ [Ev.mapWrite message.topic, Ev.unlock], true⟩ := by
  have h : ¬ 2 ≤ (room connections message.topic).length := by omega
  simp [loopBody, hType, h]

theorem loopBody_setUsername_found (hType : message.type = "setUsername")
    (hIn : (mapGet (room connections message.topic) conn).isSome = true) :
    loopBody conn env connections currentTopic (Input.parsed message)
      = ⟨assign connections message.topic conn message.data, currentTopic,
          [Ev.lock, Ev.mapRead message.topic, Ev.mapWrite message.topic, Ev.unlock], true⟩ := by
  simp [loopBody, hType, hIn]

theorem loopBody_setUsername_missing (hType : message.type = "setUsername")
    (hOut : (mapGet (room connections message.topic) conn).isSome = false) :
    loopBody conn env connections currentTopic (Input.parsed message)
      = ⟨connections, currentTopic,
          [Ev.lock, Ev.mapRead message.topic,
            Ev.writeJSON conn (errorMessage "Set a topic first"),
            Ev.close conn, Ev.unlock, Ev.close conn], false⟩ := by
  simp [loopBody, hType, hOut]

theorem loopBody_message_unset (hType : message.type = "message") (hTopic : currentTopic = "") :
    loopBody conn env connections currentTopic (Input.parsed message)
      = ⟨connections, currentTopic,
          [Ev.writeJSON conn (errorMessage "Set a topic first")], true⟩ := by
  simp [loopBody, hType, hTopic]

theorem loopBody_message_joined (hType : message.type = "message") (hTopic : currentTopic ≠ "") :
    loopBody conn env connections currentTopic (Input.parsed message)
      = ⟨(broadcast currentTopic conn message.data env.writeOk env.order connections).1,
          currentTopic,
          [Ev.mapRead currentTopic,
            Ev.sendMessage currentTopic
              (usernameOf connections currentTopic conn ++ ": " ++ message.data)]
            ++ (if env.publishOk then [] else [Ev.println "Error while producing message:"])
            ++ [Ev.lock, Ev.mapRead currentTopic]
            ++ (broadcast currentTopic conn message.data env.writeOk env.order connections).2
            ++ [Ev.unlock], true⟩ := by
  simp [loopBody, hType, hTopic]

theorem loopBody_unknown (h1 : message.type ≠ "setTopic") (h2 : message.type ≠ "setUsername")
    (h3 : message.type ≠ "message") :
    loopBody conn env connections currentTopic (Input.parsed message)
      = ⟨connections, currentTopic, [], true⟩ := by
  simp [loopBody, h1, h2, h3]

/-- The writes of a `message` iteration of a joined handler are those of the loop. -/
theorem writes_message_joined (hType : message.type = "message") (hTopic : currentTopic ≠ "") :
    writes (loopBody conn env connections currentTopic (Input.parsed message)).trace
      = writes (broadcast currentTopic conn message.data env.writeOk env.order connections).2 := by
  rw [loopBody_message_joined conn env connections currentTopic message hType hTopic]
  cases env.publishOk <;> simp [writes_append, writes]

/-- The closes of a `message` iteration of a joined handler are those of the loop. -/
theorem closes_message_joined (hType : message.type = "message") (hTopic : currentTopic ≠ "") :
    closes (loopBody conn env connections currentTopic (Input.parsed message)).trace
      = closes (broadcast currentTopic conn message.data env.writeOk env.order connections).2 := by
  rw [loopBody_message_joined conn env connections currentTopic message hType hTopic]
  cases env.publishOk <;> simp [closes_append, closes]

end Branches

/-! ## Room-full rejection and join acceptance -/

/-- C2. Room-full rejection: a `setTopic` naming a topic that already has two (or more)
participants makes the handler write exactly one message, the error "Topic is full", to
the requesting connection and to nobody else, close that connection (and no other), leave
the loop, publish nothing and leave the shared map exactly as it was. -/
theorem setTopic_full_rejected (conn : Conn) (env : Env) (connections : Registry)
    (currentTopic : String) (message : Message)
    (hType : message.type = "setTopic")
    (hFull : 2 ≤ (participants connections message.topic).length) :
    let r := loopBody conn env connections currentTopic (Input.parsed message)
    writes r.trace = [(conn, ⟨"error", "", "", "Topic is full"⟩)]
      ∧ closes r.trace = [conn, conn]
      ∧ publishes r.trace = []
      ∧ r.running = false
      ∧ r.connections = connections := by
  intro r
  have hr : r = _ := loopBody_setTopic_full conn env connections currentTopic message hType
    (by rw [← length_participants]; exact hFull)
  rw [hr]
  simp [writes, closes, publishes, errorMessage]

theorem setTopic_full_rejected_witness :
    2 ≤ (participants [("T", [(1, "alice"), (2, "bob")])] "T").length
      ∧ (let r := loopBody 3 ⟨true, fun _ => true, []⟩ [("T", [(1, "alice"), (2, "bob")])] ""
            (Input.parsed ⟨"setTopic", "T", "", ""⟩)
         writes r.trace = [(3, ⟨"error", "", "", "Topic is full"⟩)]
            ∧ closes r.trace = [3, 3]
            ∧ publishes r.trace = []
            ∧ r.running = false
            ∧ r.connections = [("T", [(1, "alice"), (2, "bob")])]) :=
  ⟨by decide,
    setTopic_full_rejected 3 ⟨true, fun _ => true, []⟩ [("T", [(1, "alice"), (2, "bob")])] ""
      ⟨"setTopic", "T", "", ""⟩ rfl (by decide)⟩

/-- C3. Join acceptance: a `setTopic` for a topic with fewer than two participants is
accepted. Nothing is written, nothing is closed, the loop goes on with `currentTopic` set
to the topic; the topic's participants afterwards are the old ones plus the connection,
whose username is the empty string; every other participant of the topic keeps its
username and every other topic keeps its room. -/
theorem setTopic_accepted (conn : Conn) (env : Env) (connections : Registry)
    (currentTopic : String) (message : Message)
    (hType : message.type = "setTopic")
    (hRoom : (participants connections message.topic).length < 2) :
    let r := loopBody conn env connections currentTopic (Input.parsed message)
    writes r.trace = []
      ∧ closes r.trace = []
      ∧ r.running = true
      ∧ r.currentTopic = message.topic
      ∧ (∀ c, c ∈ participants r.connections message.topic
            ↔ c ∈ participants connections message.topic ∨ c = conn)
      ∧ mapGet (room r.connections message.topic) conn = some ""
      ∧ (∀ c, c ≠ conn → mapGet (room r.connections message.topic) c
            = mapGet (room connections message.topic) c)
      ∧ (∀ t, t ≠ message.topic → mapGet r.connections t = mapGet connections t) := by
  intro r
  have hr : r = _ := loopBody_setTopic_join conn env connections currentTopic message hType
    (by rw [← length_participants]; exact hRoom)
  rw [hr]
  refine ⟨?_, ?_, rfl, rfl, ?_, ?_, ?_, ?_⟩
  · cases (mapGet connections message.topic).isNone <;> simp [writes]
  · cases (mapGet connections message.topic).isNone <;> simp [closes]
  · intro c
    simp only [participants, room_assign, room_ensureRoom, if_true]
    exact mem_mapKeys_mapSet _ _ _ _
  · simp only [room_assign, room_ensureRoom, if_true]
    exact mapGet_mapSet_self _ _ _
  · intro c hc
    simp only [room_assign, room_ensureRoom, if_true]
    exact mapGet_mapSet_of_ne _ _ hc
  · intro t ht
    simp only [mapGet_assign, ht, if_false]
    exact mapGet_ensureRoom_of_ne connections ht

theorem setTopic_accepted_witness :
    (participants [("T", [(1, "alice")])] "T").length < 2
      ∧ (let r := loopBody 2 ⟨true, fun _ => true, []⟩ [("T", [(1, "alice")])] ""
            (Input.parsed ⟨"setTopic", "T", "", ""⟩)
         writes r.trace = []
            ∧ closes r.trace = []
            ∧ r.running = true
            ∧ r.currentTopic = "T"
            ∧ (∀ c, c ∈ participants r.connections "T"
                  ↔ c ∈ participants [("T", [(1, "alice")])] "T" ∨ c = 2)
            ∧ mapGet (room r.connections "T") 2 = some ""
            ∧ (∀ c, c ≠ 2 → mapGet (room r.connections "T") c
                  = mapGet (room [("T", [(1, "alice")])] "T") c)
            ∧ (∀ t, t ≠ "T" → mapGet r.connections t = mapGet [("T", [(1, "alice")])] t)) :=
  ⟨by decide,
    setTopic_accepted 2 ⟨true, fun _ => true, []⟩ [("T", [(1, "alice")])] ""
      ⟨"setTopic", "T", "", ""⟩ rfl (by decide)⟩

/-! ## Messages -/

/-- C4. Log payload: a `message` read by a handler whose `currentTopic` is set makes
exactly one call to the log sink, under `currentTopic`, with value `u ++ ": " ++ data`
where `u` is the username stored for the connection in that topic, the empty string when
there is none; this is so whether the publish and the channel writes succeed or not. -/
theorem message_log_payload (conn : Conn) (env : Env) (connections : Registry)
    (currentTopic : String) (message : Message)
    (hType : message.type = "message") (hTopic : currentTopic ≠ "") :
    publishes (loopBody conn env connections currentTopic (Input.parsed message)).trace
      = [(currentTopic,
          (mapGet (room connections currentTopic) conn).getD "" ++ ": " ++ message.data)] := by
  rw [loopBody_message_joined conn env connections currentTopic message hType hTopic]
  cases env.publishOk <;>
    simp [publishes_append, publishes, broadcast_publishes, usernameOf]

theorem message_log_payload_witness :
    "T" ≠ ""
      ∧ publishes (loopBody 1 ⟨true, fun _ => true, [1, 2]⟩
          [("T", [(1, "alice"), (2, "bob")])] "T"
          (Input.parsed ⟨"message", "", "", "hi"⟩)).trace = [("T", "alice: hi")] :=
  ⟨by decide,
    message_log_payload 1 ⟨true, fun _ => true, [1, 2]⟩ [("T", [(1, "alice"), (2, "bob")])] "T"
      ⟨"message", "", "", "hi"⟩ rfl (by decide)⟩

/-- C6. Message before topic: a `message` read while `currentTopic` is unset is answered
by exactly one effect, the write of the error "Set a topic first" to the sender; so
nothing is published, nothing is written to anyone else, nothing is closed, the shared
map is unchanged, and the loop goes on with `currentTopic` still unset. -/
theorem message_before_topic (conn : Conn) (env : Env) (connections : Registry)
    (currentTopic : String) (message : Message)
    (hType : message.type = "message") (hUnset : currentTopic = "") :
    let r := loopBody conn env connections currentTopic (Input.parsed message)
    r.trace = [Ev.writeJSON conn ⟨"error", "", "", "Set a topic first"⟩]
      ∧ writes r.trace = [(conn, ⟨"error", "", "", "Set a topic first"⟩)]
      ∧ publishes r.trace = []
      ∧ closes r.trace = []
      ∧ r.connections = connections
      ∧ r.currentTopic = ""
      ∧ r.running = true := by
  intro r
  have hr : r = _ := loopBody_message_unset conn env connections currentTopic message hType hUnset
  rw [hr]
  simp [writes, publishes, closes, errorMessage, hUnset]

theorem message_before_topic_witness :
    let r := loopBody 1 ⟨true, fun _ => true, []⟩ [("T", [(2, "bob")])] ""
      (Input.parsed ⟨"message", "", "", "hi"⟩)
    r.trace = [Ev.writeJSON 1 ⟨"error", "", "", "Set a topic first"⟩]
      ∧ writes r.trace = [(1, ⟨"error", "", "", "Set a topic first"⟩)]
      ∧ publishes r.trace = []
      ∧ closes r.trace = []
      ∧ r.connections = [("T", [(2, "bob")])]
      ∧ r.currentTopic = ""
      ∧ r.running = true :=
  message_before_topic 1 ⟨true, fun _ => true, []⟩ [("T", [(2, "bob")])] ""
    ⟨"message", "", "", "hi"⟩ rfl rfl

/-- C5, as stated, fails: in the reachable world where connection 1 has joined the empty
topic and is named "alice" there, connection 1 is joined to its topic with a username,
yet the `message` it sends is answered with the error "Set a topic first" (line 90 takes
the empty `currentTopic` to mean no topic): no participant is written the message and
nothing is published. -/
theorem fanout_empty_topic_counterexample :
    Reachable World.emptyNamed
      ∧ World.emptyNamed.sessions 1 = ⟨"", true⟩
      ∧ mapGet (room World.emptyNamed.connections "") 1 = some "alice"
      ∧ writes (World.emptyNamed.step
          ⟨1, Env.allOk [1], Input.parsed ⟨"message", "", "", "hi"⟩⟩).2
          = [(1, ⟨"error", "", "", "Set a topic first"⟩)]
      ∧ publishes (World.emptyNamed.step
          ⟨1, Env.allOk [1], Input.parsed ⟨"message", "", "", "hi"⟩⟩).2 = [] :=
  ⟨Reachable.step _ _ (Reachable.step _ _ Reachable.init (by decide)) (by decide),
    by decide, by decide, by decide, by decide⟩

/-- C5, amended. Peer fan-out in a non-empty topic: when a handler whose `currentTopic` is
not the empty string, joined to it with username `u`, reads a `message` and the write to every participant of the topic succeeds, every participant
(the sender included) is written exactly one message of type "message" with username `u`
and the data of the intent, nobody outside the topic is written anything, and the shared
map is unchanged; the publish outcome, the `range` order and the write outcomes outside
the topic are arbitrary. -/
theorem message_fanout (conn : Conn) (publishOk : Bool) (writeOk : Conn → Bool)
    (order : List Conn) (connections : Registry) (currentTopic : String) (message : Message)
    (u : String)
    (hType : message.type = "message") (hTopic : currentTopic ≠ "")
    (hJoined : mapGet (room connections currentTopic) conn = some u)
    (hOrder : RangeOrder connections currentTopic order)
    (hOk : ∀ c ∈ participants connections currentTopic, writeOk c = true) :
    let r := loopBody conn ⟨publishOk, writeOk, order⟩ connections currentTopic
      (Input.parsed message)
    (∀ c ∈ participants connections currentTopic,
        writesTo c r.trace = [⟨"message", "", u, message.data⟩])
      ∧ writesTo conn r.trace = [⟨"message", "", u, message.data⟩]
      ∧ (∀ c, c ∉ participants connections currentTopic → writesTo c r.trace = [])
      ∧ r.connections = connections
      ∧ r.currentTopic = currentTopic
      ∧ r.running = true := by
  intro r
  have hall : ∀ c ∈ order, writeOk c = true := fun c hc => hOk c (hOrder.2.1 c hc)
  have hb := broadcast_all_ok currentTopic conn message.data writeOk order connections hall
  have hu : usernameOf connections currentTopic conn = u := by simp [usernameOf, hJoined]
  have hw : writes r.trace = order.map (fun c => (c, ⟨"message", "", u, message.data⟩)) := by
    have e := writes_message_joined conn ⟨publishOk, writeOk, order⟩ connections currentTopic
      message hType hTopic
    rw [show writes r.trace = _ from e]
    simp only [hb.2, hu]
  have htargets : (writes r.trace).map Prod.fst = order := by
    rw [hw]; simp [Function.comp_def]
  have hin : ∀ c ∈ participants connections currentTopic,
      writesTo c r.trace = [⟨"message", "", u, message.data⟩] := by
    intro c hc
    have hco : c ∈ order := hOrder.2.2 c hc
    have hlen := writesTo_length_of_nodup c r.trace (by rw [htargets]; exact hOrder.1)
      (by rw [htargets]; exact hco)
    have hmem : ∀ m ∈ writesTo c r.trace, m = ⟨"message", "", u, message.data⟩ := by
      intro m hm
      simp only [writesTo, hw, List.mem_map, List.mem_filter] at hm
      obtain ⟨p, ⟨⟨x, _, hx⟩, _⟩, hp⟩ := hm
      rw [← hp, ← hx]
    match hl : writesTo c r.trace, hlen, hmem with
    | [m], _, hmem => rw [hmem m (List.mem_singleton_self m)]
  have hr : r = _ := loopBody_message_joined conn ⟨publishOk, writeOk, order⟩ connections
    currentTopic message hType hTopic
  refine ⟨hin, ?_, ?_, ?_, ?_, ?_⟩
  · apply hin
    unfold participants
    rw [mem_mapKeys_iff, hJoined]
    rfl
  · intro c hc
    apply writesTo_of_not_target
    rw [htargets]
    exact fun hco => hc (hOrder.2.1 c hco)
  · rw [hr]
    exact hb.1
  · rw [hr]
  · rw [hr]

theorem message_fanout_witness :
    "T" ≠ ""
      ∧ mapGet (room [("T", [(1, "alice"), (2, "bob")])] "T") 1 = some "alice"
      ∧ RangeOrder [("T", [(1, "alice"), (2, "bob")])] "T" [2, 1]
      ∧ (let r := loopBody 1 ⟨false, fun _ => true, [2, 1]⟩
            [("T", [(1, "alice"), (2, "bob")])] "T" (Input.parsed ⟨"message", "", "", "hi"⟩)
         (∀ c ∈ participants [("T", [(1, "alice"), (2, "bob")])] "T",
              writesTo c r.trace = [⟨"message", "", "alice", "hi"⟩])
            ∧ writesTo 1 r.trace = [⟨"message", "", "alice", "hi"⟩]
            ∧ (∀ c, c ∉ participants [("T", [(1, "alice"), (2, "bob")])] "T"
                  → writesTo c r.trace = [])
            ∧ r.connections = [("T", [(1, "alice"), (2, "bob")])]
            ∧ r.currentTopic = "T"
            ∧ r.running = true) :=
  ⟨by decide, by decide, by decide,
    message_fanout 1 false (fun _ => true) [2, 1] [("T", [(1, "alice"), (2, "bob")])] "T"
      ⟨"message", "", "", "hi"⟩ "alice" rfl (by decide) (by decide) (by decide)
      (fun _ _ => rfl)⟩

/-! ## Usernames -/

/-- C7. Username before topic: a `setUsername` (whatever its topic and data fields) read
from a connection that is registered under no topic is answered by exactly one write, the
error "Set a topic first", to that connection; the connection is closed, the handler
leaves its loop, and the shared map is exactly as before, so the connection is still
registered nowhere. -/
theorem setUsername_before_topic (conn : Conn) (env : Env) (connections : Registry)
    (currentTopic : String) (message : Message)
    (hType : message.type = "setUsername")
    (hNowhere : ∀ t, conn ∉ participants connections t) :
    let r := loopBody conn env connections currentTopic (Input.parsed message)
    writes r.trace = [(conn, ⟨"error", "", "", "Set a topic first"⟩)]
      ∧ closes r.trace = [conn, conn]
      ∧ publishes r.trace = []
      ∧ r.running = false
      ∧ r.connections = connections
      ∧ (∀ t, conn ∉ participants r.connections t) := by
  intro r
  have hOut : (mapGet (room connections message.topic) conn).isSome = false := by
    have h := hNowhere message.topic
    unfold participants at h
    rw [mem_mapKeys_iff] at h
    simpa using h
  have hr : r = _ := loopBody_setUsername_missing conn env connections currentTopic message
    hType hOut
  rw [hr]
  simp [writes, closes, publishes, errorMessage, hNowhere]

theorem setUsername_before_topic_witness :
    (∀ t, 1 ∉ participants [("T", [(2, "bob")])] t)
      ∧ (let r := loopBody 1 ⟨true, fun _ => true, []⟩ [("T", [(2, "bob")])] ""
            (Input.parsed ⟨"setUsername", "T", "", "alice"⟩)
         writes r.trace = [(1, ⟨"error", "", "", "Set a topic first"⟩)]
            ∧ closes r.trace = [1, 1]
            ∧ publishes r.trace = []
            ∧ r.running = false
            ∧ r.connections = [("T", [(2, "bob")])]
            ∧ (∀ t, 1 ∉ participants r.connections t)) :=
  have h : ∀ t, 1 ∉ participants [("T", [(2, "bob")])] t := by
    intro t
    by_cases ht : "T" = t
    · subst ht; decide
    · simp [participants, room, mapGet, mapKeys, ht]
  ⟨h, setUsername_before_topic 1 ⟨true, fun _ => true, []⟩ [("T", [(2, "bob")])] ""
      ⟨"setUsername", "T", "", "alice"⟩ rfl h⟩

/-- C8, as stated, fails: connection 1 has joined "T" (it is a participant of "T" and its
`currentTopic` is "T") and sends `setUsername` with data "alice" and no topic field. The
handler looks the connection up under the topic of the intent, finds nothing, replies with
the error "Set a topic first", closes the connection and leaves the loop; the username
stored for the connection in "T" is still empty. -/
theorem setUsername_session_topic_counterexample :
    1 ∈ participants [("T", [(1, "")])] "T"
      ∧ writes (loopBody 1 ⟨true, fun _ => true, []⟩ [("T", [(1, "")])] "T"
          (Input.parsed ⟨"setUsername", "", "", "alice"⟩)).trace
          = [(1, ⟨"error", "", "", "Set a topic first"⟩)]
      ∧ (loopBody 1 ⟨true, fun _ => true, []⟩ [("T", [(1, "")])] "T"
          (Input.parsed ⟨"setUsername", "", "", "alice"⟩)).running = false
      ∧ mapGet (room (loopBody 1 ⟨true, fun _ => true, []⟩ [("T", [(1, "")])] "T"
          (Input.parsed ⟨"setUsername", "", "", "alice"⟩)).connections "T") 1 = some "" := by
  decide

/-- C8, amended. Username set uses the topic of the intent: for a connection that has
joined topic `T` (its `currentTopic` is `T` and it is a participant of `T`) and every
`setUsername` whose own topic field is `T`, the intent is accepted: afterwards the
username stored for the connection in `T` is the data of the intent, nothing is written
or closed, the loop goes on, no other stored username changes and no room gains or loses
a participant. -/
theorem setUsername_accepted (conn : Conn) (env : Env) (connections : Registry)
    (currentTopic : String) (message : Message) (T : String)
    (hType : message.type = "setUsername")
    (hCur : currentTopic = T)
    (hJoined : conn ∈ participants connections T)
    (hField : message.topic = T) :
    let r := loopBody conn env connections currentTopic (Input.parsed message)
    mapGet (room r.connections T) conn = some message.data
      ∧ writes r.trace = []
      ∧ closes r.trace = []
      ∧ r.running = true
      ∧ r.currentTopic = T
      ∧ (∀ t c, ¬ (t = T ∧ c = conn)
            → mapGet (room r.connections t) c = mapGet (room connections t) c)
      ∧ (∀ t, participants r.connections t = participants connections t) := by
  intro r
  subst hField
  have hIn : (mapGet (room connections message.topic) conn).isSome = true := by
    unfold participants at hJoined
    rwa [mem_mapKeys_iff] at hJoined
  have hr : r = _ := loopBody_setUsername_found conn env connections currentTopic message
    hType hIn
  rw [hr]
  refine ⟨?_, ?_, ?_, rfl, hCur, ?_, ?_⟩
  · simp only [room_assign, if_true]
    exact mapGet_mapSet_self _ _ _
  · simp [writes]
  · simp [closes]
  · intro t c hne
    by_cases ht : t = message.topic
    · subst ht
      have hc : c ≠ conn := fun e => hne ⟨rfl, e⟩
      simp only [room_assign, if_true]
      exact mapGet_mapSet_of_ne _ _ hc
    · simp [room_assign, ht]
  · intro t
    by_cases ht : t = message.topic
    · subst ht
      simp only [participants, room_assign, if_true]
      exact mapKeys_mapSet_of_mem _ _ hJoined
    · simp [participants, room_assign, ht]

theorem setUsername_accepted_witness :
    1 ∈ participants [("T", [(1, ""), (2, "bob")])] "T"
      ∧ (let r := loopBody 1 ⟨true, fun _ => true, []⟩ [("T", [(1, ""), (2, "bob")])] "T"
            (Input.parsed ⟨"setUsername", "T", "", "alice"⟩)
         mapGet (room r.connections "T") 1 = some "alice"
            ∧ writes r.trace = []
            ∧ closes r.trace = []
            ∧ r.running = true
            ∧ r.currentTopic = "T"
            ∧ (∀ t c, ¬ (t = "T" ∧ c = 1) → mapGet (room r.connections t) c
                  = mapGet (room [("T", [(1, ""), (2, "bob")])] t) c)
            ∧ (∀ t, participants r.connections t
                  = participants [("T", [(1, ""), (2, "bob")])] t)) :=
  ⟨by decide,
    setUsername_accepted 1 ⟨true, fun _ => true, []⟩ [("T", [(1, ""), (2, "bob")])] "T"
      ⟨"setUsername", "T", "", "alice"⟩ "T" rfl rfl (by decide) rfl⟩

/-! ## Broadcast failures -/

/-- C9, as stated, fails: in the reachable world where connections 1 and 2 have joined the
empty topic, connection 1 is a joined sender, yet the `message` it sends is answered with
the error "Set a topic first": an error is sent to the sender and no write is attempted to
participant 2, whatever the write outcomes would have been. -/
theorem broadcast_empty_topic_counterexample :
    Reachable World.emptyPair
      ∧ World.emptyPair.sessions 1 = ⟨"", true⟩
      ∧ participants World.emptyPair.connections "" = [1, 2]
      ∧ writes (World.emptyPair.step
          ⟨1, ⟨true, fun c => decide (c ≠ 2), [1, 2]⟩,
            Input.parsed ⟨"message", "", "", "hi"⟩⟩).2
          = [(1, ⟨"error", "", "", "Set a topic first"⟩)]
      ∧ writesTo 2 (World.emptyPair.step
          ⟨1, ⟨true, fun c => decide (c ≠ 2), [1, 2]⟩,
            Input.parsed ⟨"message", "", "", "hi"⟩⟩).2 = [] :=
  ⟨Reachable.step _ _ (Reachable.step _ _ Reachable.init (by decide)) (by decide),
    by decide, by decide, by decide, by decide⟩

/-- C9, amended. Broadcast failure isolation in a non-empty topic: for a `message` read by
a handler whose `currentTopic` is not the empty string, every assignment of success or
failure to the writes and every `range` order of the room, the writes attempted are exactly one to each participant of the room as it was
before the loop, in `range` order (a failure does not stop the loop); afterwards the
room holds exactly the earlier participants whose write succeeded, the connections closed
are exactly the participants whose write failed, every other topic is untouched, every
write is of type "message" (no error goes to the sender or to anyone), and the sender's
loop goes on with the same `currentTopic`. -/
theorem broadcast_failure_isolation (conn : Conn) (publishOk : Bool) (writeOk : Conn → Bool)
    (order : List Conn) (connections : Registry) (currentTopic : String) (message : Message)
    (hType : message.type = "message") (hTopic : currentTopic ≠ "")
    (hOrder : RangeOrder connections currentTopic order) :
    let r := loopBody conn ⟨publishOk, writeOk, order⟩ connections currentTopic
      (Input.parsed message)
    (writes r.trace).map Prod.fst = order
      ∧ (∀ c ∈ participants connections currentTopic, (writesTo c r.trace).length = 1)
      ∧ (∀ c, c ∈ participants r.connections currentTopic
            ↔ c ∈ participants connections currentTopic ∧ writeOk c = true)
      ∧ (∀ c, c ∈ closes r.trace
            ↔ c ∈ participants connections currentTopic ∧ writeOk c = false)
      ∧ (∀ t, t ≠ currentTopic → mapGet r.connections t = mapGet connections t)
      ∧ (∀ p ∈ writes r.trace, p.2.type = "message")
      ∧ r.currentTopic = currentTopic
      ∧ r.running = true := by
  intro r
  have hr : r = _ := loopBody_message_joined conn ⟨publishOk, writeOk, order⟩ connections
    currentTopic message hType hTopic
  have hw : writes r.trace
      = writes (broadcast currentTopic conn message.data writeOk order connections).2 :=
    writes_message_joined conn ⟨publishOk, writeOk, order⟩ connections currentTopic
      message hType hTopic
  have hc : closes r.trace
      = closes (broadcast currentTopic conn message.data writeOk order connections).2 :=
    closes_message_joined conn ⟨publishOk, writeOk, order⟩ connections currentTopic
      message hType hTopic
  have htargets : (writes r.trace).map Prod.fst = order := by
    rw [hw]; exact broadcast_write_targets _ _ _ _ _ _
  refine ⟨htargets, ?_, ?_, ?_, ?_, ?_, ?_, ?_⟩
  · intro c hcp
    exact writesTo_length_of_nodup c r.trace (by rw [htargets]; exact hOrder.1)
      (by rw [htargets]; exact hOrder.2.2 c hcp)
  · intro c
    rw [hr]
    simp only []
    rw [broadcast_participants]
    constructor
    · rintro ⟨hp, hn⟩
      refine ⟨hp, ?_⟩
      cases hok : writeOk c with
      | true => rfl
      | false => exact absurd ⟨hOrder.2.2 c hp, hok⟩ hn
    · rintro ⟨hp, hok⟩
      exact ⟨hp, fun h => by simp [hok] at h⟩
  · intro c
    rw [hc, broadcast_closes]
    simp only [List.mem_filter, Bool.not_eq_true', Bool.not_eq_eq_eq_not, Bool.not_true]
    constructor
    · rintro ⟨ho, hf⟩
      exact ⟨hOrder.2.1 c ho, hf⟩
    · rintro ⟨hp, hf⟩
      exact ⟨hOrder.2.2 c hp, hf⟩
  · intro t ht
    rw [hr]
    exact broadcast_other_topic _ _ _ _ _ _ ht
  · intro p hp
    rw [hw] at hp
    exact (broadcast_write_shape _ _ _ _ _ _ p hp).1
  · rw [hr]
  · rw [hr]

theorem broadcast_failure_isolation_witness :
    "T" ≠ ""
      ∧ RangeOrder [("T", [(1, "alice"), (2, "bob")])] "T" [2, 1]
      ∧ (let r := loopBody 1 ⟨true, fun c => decide (c ≠ 2), [2, 1]⟩
            [("T", [(1, "alice"), (2, "bob")])] "T" (Input.parsed ⟨"message", "", "", "hi"⟩)
         (writes r.trace).map Prod.fst = [2, 1]
            ∧ (∀ c ∈ participants [("T", [(1, "alice"), (2, "bob")])] "T",
                  (writesTo c r.trace).length = 1)
            ∧ (∀ c, c ∈ participants r.connections "T"
                  ↔ c ∈ participants [("T", [(1, "alice"), (2, "bob")])] "T"
                    ∧ decide (c ≠ 2) = true)
            ∧ (∀ c, c ∈ closes r.trace
                  ↔ c ∈ participants [("T", [(1, "alice"), (2, "bob")])] "T"
                    ∧ decide (c ≠ 2) = false)
            ∧ (∀ t, t ≠ "T" → mapGet r.connections t
                  = mapGet [("T", [(1, "alice"), (2, "bob")])] t)
            ∧ (∀ p ∈ writes r.trace, p.2.type = "message")
            ∧ r.currentTopic = "T"
            ∧ r.running = true) :=
  ⟨by decide, by decide,
    broadcast_failure_isolation 1 true (fun c => decide (c ≠ 2)) [2, 1]
      [("T", [(1, "alice"), (2, "bob")])] "T" ⟨"message", "", "", "hi"⟩ rfl (by decide)
      (by decide)⟩

/-- A duplicate-free list whose only possible member is `a`, and which has `a`, is `[a]`. -/
theorem eq_singleton_of_nodup (l : List Conn) (a : Conn) (hn : l.Nodup)
    (hm : ∀ c, c ∈ l ↔ c = a) : l = [a] := by
  match l, hn, hm with
  | [], _, hm => exact absurd ((hm a).2 rfl) (List.not_mem_nil a)
  | [x], _, hm =>
    have hx : x = a := (hm x).1 (List.mem_singleton_self x)
    rw [hx]
  | x :: y :: rest, hn, hm =>
    have hx : x = a := (hm x).1 (List.mem_cons_self _ _)
    have hy : y = a := (hm y).1 (List.mem_cons_of_mem _ (List.mem_cons_self _ _))
    have hxy : x ≠ y := by
      intro e
      rw [List.nodup_cons] at hn
      exact hn.1 (e ▸ List.mem_cons_self _ _)
    exact absurd (hx.trans hy.symm) hxy

/-- C10, the code at the failing input: connections 1 ("alice") and 2 ("bob") are the
participants of "T"; connection 1 sends a message, the write to 2 fails and 2 is removed
from "T"; connection 1 then sends its next message, with no other handler running in
between. The `range` loop of lines 105-111 has no test that skips the sender, so this
second message, which has no other client to go to, is written with type "message" to
connection 1 itself. -/
theorem echo_after_failed_peer :
    RangeOrder [("T", [(1, "alice"), (2, "bob")])] "T" [1, 2]
      ∧ 2 ∉ participants (loopBody 1 ⟨true, fun c => decide (c ≠ 2), [1, 2]⟩
          [("T", [(1, "alice"), (2, "bob")])] "T"
          (Input.parsed ⟨"message", "", "", "hi"⟩)).connections "T"
      ∧ writes (loopBody 1 ⟨true, fun _ => true, [1]⟩
          (loopBody 1 ⟨true, fun c => decide (c ≠ 2), [1, 2]⟩
            [("T", [(1, "alice"), (2, "bob")])] "T"
            (Input.parsed ⟨"message", "", "", "hi"⟩)).connections "T"
          (Input.parsed ⟨"message", "", "", "again"⟩)).trace
          = [(1, ⟨"message", "", "alice", "again"⟩)]
      ∧ writes (handlerLoop 1
          [(⟨true, fun c => decide (c ≠ 2), [1, 2]⟩, Input.parsed ⟨"message", "", "", "hi"⟩),
            (⟨true, fun _ => true, [1]⟩, Input.parsed ⟨"message", "", "", "again"⟩)]
          [("T", [(1, "alice"), (2, "bob")])] "T").trace
          = [(1, ⟨"message", "", "alice", "hi"⟩), (2, ⟨"message", "", "alice", "hi"⟩),
              (1, ⟨"message", "", "alice", "again"⟩)] := by
  decide

/-- The same on every input, for two consecutive iterations of `A` with no other handler
in between: for distinct connections `A` and `B` that are the participants of a non-empty
topic `T`, if the write to `B` fails during the broadcast of a message of `A` (the write to
`A` succeeding), then `B` is no longer a participant of `T` and `A` is the only one left;
the next message of `A` causes exactly one write: that message, with type "message" and
the username of `A`, to `A` itself. No error is written and the loop of `A` goes on. -/
theorem after_failed_peer (A B : Conn) (T : String) (connections : Registry)
    (env1 env2 : Env) (m1 m2 : Message)
    (hAB : A ≠ B) (hT : T ≠ "")
    (hRoom : ∀ c, c ∈ participants connections T ↔ c = A ∨ c = B)
    (hm1 : m1.type = "message") (hm2 : m2.type = "message")
    (hOrder1 : RangeOrder connections T env1.order)
    (hA : env1.writeOk A = true) (hB : env1.writeOk B = false)
    (hOrder2 : RangeOrder (loopBody A env1 connections T (Input.parsed m1)).connections T
      env2.order) :
    let r1 := loopBody A env1 connections T (Input.parsed m1)
    let r2 := loopBody A env2 r1.connections r1.currentTopic (Input.parsed m2)
    B ∉ participants r1.connections T
      ∧ (∀ c, c ∈ participants r1.connections T ↔ c = A)
      ∧ r1.currentTopic = T
      ∧ r1.running = true
      ∧ writes r2.trace = [(A, ⟨"message", "", usernameOf connections T A, m2.data⟩)]
      ∧ (∀ c, c ≠ A → writesTo c r2.trace = [])
      ∧ (∀ p ∈ writes r2.trace, p.2.type ≠ "error")
      ∧ r2.running = true := by
  intro r1 r2
  have hr1 : r1 = _ := loopBody_message_joined A env1 connections T m1 hm1 hT
  have hcur : r1.currentTopic = T := by rw [hr1]
  have hreg : r1.connections
      = (broadcast T A m1.data env1.writeOk env1.order connections).1 := by rw [hr1]
  have hpart : ∀ c, c ∈ participants r1.connections T ↔ c = A := by
    intro c
    rw [hreg, broadcast_participants, hRoom]
    constructor
    · rintro ⟨hc | hc, hn⟩
      · exact hc
      · subst hc
        exact absurd ⟨hOrder1.2.2 c ((hRoom c).2 (Or.inr rfl)), hB⟩ hn
    · intro hc
      subst hc
      exact ⟨Or.inl rfl, fun h => by simp [hA] at h⟩
  have hB2 : B ∉ participants r1.connections T := fun h => hAB ((hpart B).1 h).symm
  have hord : env2.order = [A] := by
    apply eq_singleton_of_nodup _ _ hOrder2.1
    intro c
    constructor
    · intro hc
      exact (hpart c).1 (hOrder2.2.1 c hc)
    · intro hc
      exact hOrder2.2.2 c ((hpart c).2 hc)
  have huser : usernameOf r1.connections T A = usernameOf connections T A := by
    unfold usernameOf
    rw [hreg, broadcast_entry]
    simp [hA]
  have hr2 : r2 = loopBody A env2 r1.connections T (Input.parsed m2) := by
    show loopBody A env2 r1.connections r1.currentTopic (Input.parsed m2) = _
    rw [hcur]
  have hw2 : writes r2.trace = [(A, ⟨"message", "", usernameOf connections T A, m2.data⟩)] := by
    rw [hr2, writes_message_joined A env2 r1.connections T m2 hm2 hT, hord]
    cases hok : env2.writeOk A with
    | true =>
      rw [broadcast_cons_ok T A m2.data env2.writeOk A [] r1.connections hok]
      simp [writes, broadcast_nil, huser]
    | false =>
      rw [broadcast_cons_fail T A m2.data env2.writeOk A [] r1.connections hok]
      simp [writes, broadcast_nil, huser]
  refine ⟨hB2, hpart, hcur, ?_, hw2, ?_, ?_, ?_⟩
  · rw [hr1]
  · intro c hc
    apply writesTo_of_not_target
    rw [hw2]
    simpa using hc
  · intro p hp
    rw [hw2] at hp
    simp only [List.mem_singleton] at hp
    rw [hp]
    show "message" ≠ "error"
    decide
  · rw [hr2, loopBody_message_joined A env2 r1.connections T m2 hm2 hT]

theorem after_failed_peer_witness :
    (1 : Conn) ≠ 2 ∧ "T" ≠ ""
      ∧ (∀ c, c ∈ participants [("T", [(1, "alice"), (2, "bob")])] "T" ↔ c = 1 ∨ c = 2)
      ∧ RangeOrder [("T", [(1, "alice"), (2, "bob")])] "T" [2, 1]
      ∧ RangeOrder (loopBody 1 ⟨true, fun c => decide (c ≠ 2), [2, 1]⟩
            [("T", [(1, "alice"), (2, "bob")])] "T"
            (Input.parsed ⟨"message", "", "", "hi"⟩)).connections "T" [1]
      ∧ (let r1 := loopBody 1 ⟨true, fun c => decide (c ≠ 2), [2, 1]⟩
            [("T", [(1, "alice"), (2, "bob")])] "T" (Input.parsed ⟨"message", "", "", "hi"⟩)
         let r2 := loopBody 1 ⟨false, fun _ => true, [1]⟩ r1.connections r1.currentTopic
            (Input.parsed ⟨"message", "", "", "again"⟩)
         2 ∉ participants r1.connections "T"
            ∧ (∀ c, c ∈ participants r1.connections "T" ↔ c = 1)
            ∧ r1.currentTopic = "T"
            ∧ r1.running = true
            ∧ writes r2.trace
                = [(1, ⟨"message", "", usernameOf [("T", [(1, "alice"), (2, "bob")])] "T" 1,
                    "again"⟩)]
            ∧ (∀ c, c ≠ 1 → writesTo c r2.trace = [])
            ∧ (∀ p ∈ writes r2.trace, p.2.type ≠ "error")
            ∧ r2.running = true) :=
  have hroom : ∀ c, c ∈ participants [("T", [(1, "alice"), (2, "bob")])] "T" ↔ c = 1 ∨ c = 2 := by
    intro c
    simp [participants, room, mapGet, mapKeys]
  ⟨by decide, by decide, hroom, by decide, by decide,
    after_failed_peer 1 2 "T" [("T", [(1, "alice"), (2, "bob")])]
      ⟨true, fun c => decide (c ≠ 2), [2, 1]⟩ ⟨false, fun _ => true, [1]⟩
      ⟨"message", "", "", "hi"⟩ ⟨"message", "", "", "again"⟩
      (by decide) (by decide) hroom rfl rfl (by decide) rfl rfl (by decide)⟩

/-! ## Room capacity over all interleavings -/

theorem roomsBounded_remove (connections : Registry) (t : String) (c : Conn)
    (h : RoomsBounded connections) : RoomsBounded (remove connections t c) := by
  intro q
  unfold participants
  rw [room_remove]
  by_cases hq : q = t
  · subst hq
    simp only [if_true]
    exact ⟨mapDelete_nodup _ _ (h q).1, (mapDelete_length_le _ _).trans (h q).2⟩
  · simp only [hq, if_false]
    exact h q

theorem roomsBounded_assign_of_mem (connections : Registry) (t : String) (c : Conn)
    (u : String) (h : RoomsBounded connections) (hc : c ∈ participants connections t) :
    RoomsBounded (assign connections t c u) := by
  intro q
  unfold participants
  rw [room_assign]
  by_cases hq : q = t
  · subst hq
    simp only [if_true]
    exact ⟨mapSet_nodup _ _ _ (h q).1, by rw [mapSet_length_of_mem _ _ hc]; exact (h q).2⟩
  · simp only [hq, if_false]
    exact h q

theorem roomsBounded_join (connections : Registry) (t : String) (c : Conn)
    (h : RoomsBounded connections) (hlt : (room connections t).length < 2) :
    RoomsBounded (assign (ensureRoom connections t) t c "") := by
  intro q
  unfold participants
  rw [room_assign, room_ensureRoom, room_ensureRoom]
  by_cases hq : q = t
  · subst hq
    simp only [if_true]
    refine ⟨mapSet_nodup _ _ _ (h q).1, ?_⟩
    have := mapSet_length_le (room connections q) c ""
    omega
  · simp only [hq, if_false]
    exact h q

/-- One loop iteration of any handler, on any input and in any environment, keeps every
room duplicate-free and of size at most two. -/
theorem roomsBounded_loopBody (conn : Conn) (env : Env) (connections : Registry)
    (currentTopic : String) (input : Input) (h : RoomsBounded connections) :
    RoomsBounded (loopBody conn env connections currentTopic input).connections := by
  cases input with
  | readError =>
    by_cases ht : currentTopic = ""
    · simpa [loopBody, ht] using h
    · simpa [loopBody, ht] using roomsBounded_remove connections currentTopic conn h
  | malformed => simpa [loopBody] using h
  | parsed message =>
    by_cases h1 : message.type = "setTopic"
    · by_cases hfull : 2 ≤ (room connections message.topic).length
      · rw [loopBody_setTopic_full conn env connections currentTopic message h1 hfull]
        exact h
      · rw [loopBody_setTopic_join conn env connections currentTopic message h1 (by omega)]
        exact roomsBounded_join connections message.topic conn h (by omega)
    · by_cases h2 : message.type = "setUsername"
      · cases hin : (mapGet (room connections message.topic) conn).isSome with
        | true =>
          rw [loopBody_setUsername_found conn env connections currentTopic message h2 hin]
          apply roomsBounded_assign_of_mem connections message.topic conn message.data h
          unfold participants
          rw [mem_mapKeys_iff]
          exact hin
        | false =>
          rw [loopBody_setUsername_missing conn env connections currentTopic message h2 hin]
          exact h
      · by_cases h3 : message.type = "message"
        · by_cases ht : currentTopic = ""
          · rw [loopBody_message_unset conn env connections currentTopic message h3 ht]
            exact h
          · rw [loopBody_message_joined conn env connections currentTopic message h3 ht]
            exact broadcast_preserves currentTopic conn message.data env.writeOk RoomsBounded
              (fun r c hr => roomsBounded_remove r currentTopic c hr) env.order connections h
        · rw [loopBody_unknown conn env connections currentTopic message h1 h2 h3]
          exact h

theorem roomsBounded_reachable (w : World) (h : Reachable w) : RoomsBounded w.connections := by
  induction h with
  | init =>
    intro t
    simp [World.init, participants, room, mapGet, mapKeys]
  | step w a _ _ ih =>
    exact roomsBounded_loopBody a.conn a.env w.connections (w.sessions a.conn).currentTopic
      a.input ih

/-! ## Racing joins -/

theorem run_nil (w : World) : w.run [] = (w, []) := rfl

theorem run_cons (w : World) (a : Action) (rest : List Action) :
    w.run (a :: rest) = (((w.step a).1.run rest).1, (w.step a).2 ++ ((w.step a).1.run rest).2) :=
  rfl

theorem step_join_full (w : World) (t : String) (env : Env) (c : Conn)
    (hFull : 2 ≤ (room w.connections t).length) :
    (w.step (joinAction t env c)).1.connections = w.connections
      ∧ (w.step (joinAction t env c)).1.sessions c = ⟨(w.sessions c).currentTopic, false⟩
      ∧ (∀ x, x ≠ c → (w.step (joinAction t env c)).1.sessions x = w.sessions x)
      ∧ writes (w.step (joinAction t env c)).2 = [(c, errorMessage "Topic is full")] := by
  have hr := loopBody_setTopic_full c env w.connections (w.sessions c).currentTopic
    ⟨"setTopic", t, "", ""⟩ rfl hFull
  refine ⟨?_, ?_, ?_, ?_⟩
  · simp only [World.step, joinAction]; rw [hr]
  · simp only [World.step, joinAction]; rw [hr]; simp
  · intro x hx
    simp [World.step, joinAction, hx]
  · simp only [World.step, joinAction]; rw [hr]; simp [writes]

theorem step_join_free (w : World) (t : String) (env : Env) (c : Conn)
    (hFree : (room w.connections t).length < 2) :
    room (w.step (joinAction t env c)).1.connections t = mapSet (room w.connections t) c ""
      ∧ (w.step (joinAction t env c)).1.sessions c = ⟨t, true⟩
      ∧ (∀ x, x ≠ c → (w.step (joinAction t env c)).1.sessions x = w.sessions x)
      ∧ writes (w.step (joinAction t env c)).2 = [] := by
  have hr := loopBody_setTopic_join c env w.connections (w.sessions c).currentTopic
    ⟨"setTopic", t, "", ""⟩ rfl hFree
  refine ⟨?_, ?_, ?_, ?_⟩
  · simp only [World.step, joinAction]; rw [hr]
    simp [room_assign, room_ensureRoom]
  · simp only [World.step, joinAction]; rw [hr]; simp
  · intro x hx
    simp [World.step, joinAction, hx]
  · simp only [World.step, joinAction]; rw [hr]
    cases (mapGet w.connections t).isNone <;> simp [writes]

/-- Joiners arriving at a full room are all turned away: the map does not change, each of
them leaves its loop, and each is written the error once. -/
theorem run_joins_full (t : String) (envs : Conn → Env) (cs : List Conn) (w : World)
    (hn : cs.Nodup) (hFull : 2 ≤ (room w.connections t).length) :
    (w.run (cs.map (fun c => joinAction t (envs c) c))).1.connections = w.connections
      ∧ (∀ c ∈ cs, ((w.run (cs.map (fun c => joinAction t (envs c) c))).1.sessions c).running
            = false)
      ∧ (∀ c, c ∉ cs
            → (w.run (cs.map (fun c => joinAction t (envs c) c))).1.sessions c = w.sessions c)
      ∧ writes (w.run (cs.map (fun c => joinAction t (envs c) c))).2
          = cs.map (fun c => (c, errorMessage "Topic is full")) := by
  induction cs generalizing w with
  | nil => simp [run_nil, writes]
  | cons a rest ih =>
    rw [List.nodup_cons] at hn
    obtain ⟨hconn, hsa, hsx, hwr⟩ := step_join_full w t (envs a) a hFull
    have ih2 := ih (w.step (joinAction t (envs a) a)).1 hn.2 (by rw [hconn]; exact hFull)
    obtain ⟨i1, i2, i3, i4⟩ := ih2
    simp only [List.map_cons, run_cons]
    refine ⟨by rw [i1, hconn], ?_, ?_, ?_⟩
    · intro c hc
      rcases List.mem_cons.1 hc with e | e
      · subst e
        rw [i3 c hn.1, hsa]
      · exact i2 c e
    · intro c hc
      rw [List.mem_cons, not_or] at hc
      rw [i3 c hc.2, hsx c hc.1]
    · rw [writes_append, hwr, i4]
      rfl

/-- The messages written to `c` by a trace that writes the same message once to each of a
duplicate-free list of targets. -/
theorem writesTo_uniform (c : Conn) (trace : List Ev) (targets : List Conn) (m : Message)
    (hw : writes trace = targets.map (fun x => (x, m))) (hn : targets.Nodup) :
    writesTo c trace = if c ∈ targets then [m] else [] := by
  have htargets : (writes trace).map Prod.fst = targets := by
    rw [hw]; simp [Function.comp_def]
  by_cases hc : c ∈ targets
  · rw [if_pos hc]
    have hlen := writesTo_length_of_nodup c trace (by rw [htargets]; exact hn)
      (by rw [htargets]; exact hc)
    have hmem : ∀ x ∈ writesTo c trace, x = m := by
      intro x hx
      simp only [writesTo, hw, List.mem_map, List.mem_filter] at hx
      obtain ⟨p, ⟨⟨y, _, hy⟩, _⟩, hp⟩ := hx
      rw [← hp, ← hy]
    match hl : writesTo c trace, hlen, hmem with
    | [x], _, hmem => rw [hmem x (List.mem_singleton_self x)]
  · rw [if_neg hc]
    exact writesTo_of_not_target c trace (by rw [htargets]; exact hc)

/-- Joiners racing for an empty room, in the order `a`, `b`, then the others: `a` and `b`
get the two places and every other joiner is written the error. -/
theorem run_joins_empty (t : String) (envs : Conn → Env) (a b : Conn) (rest : List Conn)
    (w : World) (hEmpty : participants w.connections t = []) (hn : (a :: b :: rest).Nodup) :
    participants (w.run ((a :: b :: rest).map (fun c => joinAction t (envs c) c))).1.connections
        t = [a, b]
      ∧ (w.run ((a :: b :: rest).map (fun c => joinAction t (envs c) c))).1.sessions a
          = ⟨t, true⟩
      ∧ (w.run ((a :: b :: rest).map (fun c => joinAction t (envs c) c))).1.sessions b
          = ⟨t, true⟩
      ∧ (∀ c ∈ rest,
          ((w.run ((a :: b :: rest).map (fun c => joinAction t (envs c) c))).1.sessions c).running
            = false)
      ∧ writes (w.run ((a :: b :: rest).map (fun c => joinAction t (envs c) c))).2
          = rest.map (fun c => (c, errorMessage "Topic is full")) := by
  rw [List.nodup_cons, List.nodup_cons] at hn
  obtain ⟨ha, hb, hrest⟩ := hn
  have hab : a ≠ b := fun e => ha (e ▸ List.mem_cons_self _ _)
  have har : a ∉ rest := fun h => ha (List.mem_cons_of_mem _ h)
  have hroom0 : room w.connections t = [] := by
    unfold participants mapKeys at hEmpty
    exact List.map_eq_nil_iff.1 hEmpty
  obtain ⟨r1, s1, _, w1⟩ := step_join_free w t (envs a) a (by rw [hroom0]; simp)
  have hroom1 : room (w.step (joinAction t (envs a) a)).1.connections t = [(a, "")] := by
    rw [r1, hroom0]; rfl
  obtain ⟨r2, s2, x2, w2⟩ := step_join_free (w.step (joinAction t (envs a) a)).1 t (envs b) b
    (by rw [hroom1]; simp)
  have hroom2 : room ((w.step (joinAction t (envs a) a)).1.step
      (joinAction t (envs b) b)).1.connections t = [(a, ""), (b, "")] := by
    rw [r2, hroom1]
    simp [mapSet, hab]
  obtain ⟨f1, f2, f3, f4⟩ := run_joins_full t envs rest
    ((w.step (joinAction t (envs a) a)).1.step (joinAction t (envs b) b)).1 hrest
    (by rw [hroom2]; simp)
  simp only [List.map_cons, run_cons]
  refine ⟨?_, ?_, ?_, f2, ?_⟩
  · unfold participants
    rw [f1, hroom2]
    rfl
  · rw [f3 a har, x2 a hab, s1]
  · rw [f3 b hb, s2]
  · rw [writes_append, writes_append, w1, w2, f4]
    rfl

/-- C1. Room capacity invariant. (1) In every world reachable from process start by any
interleaving of loop iterations of any handlers (any input: `setTopic`, `setUsername`,
`message` with arbitrary write outcomes and `range` order, read error, anything else),
each iteration being atomic, every topic has at most two participants, each listed once.
(2) When `N ≥ 2` distinct live connections all send `setTopic` for a topic without
participants, in any order, exactly two of them are accepted (they stay in their loop with
`currentTopic` set, are registered under the topic and are written nothing) and the other
`N - 2` are each written exactly the error "Topic is full" and are not registered; the
topic ends with two participants. -/
theorem room_capacity_invariant :
    (∀ w, Reachable w → ∀ t,
        (participants w.connections t).Nodup ∧ (participants w.connections t).length ≤ 2)
      ∧ (∀ (w : World) (t : String) (cs : List Conn) (envs : Conn → Env),
          participants w.connections t = [] → cs.Nodup → 2 ≤ cs.length
          → (∀ c ∈ cs, (w.sessions c).running = true)
          → (let r := w.run (cs.map (fun c => joinAction t (envs c) c))
             (cs.filter (fun c => (r.1.sessions c).running)).length = 2
              ∧ (cs.filter (fun c =>
                    decide (writesTo c r.2 = [⟨"error", "", "", "Topic is full"⟩]))).length
                  = cs.length - 2
              ∧ (∀ c ∈ cs, (r.1.sessions c).running = true
                    → (r.1.sessions c).currentTopic = t
                      ∧ c ∈ participants r.1.connections t
                      ∧ writesTo c r.2 = [])
              ∧ (∀ c ∈ cs, (r.1.sessions c).running = false
                    → writesTo c r.2 = [⟨"error", "", "", "Topic is full"⟩]
                      ∧ c ∉ participants r.1.connections t)
              ∧ (participants r.1.connections t).length = 2)) := by
  constructor
  · intro w hw t
    have h := roomsBounded_reachable w hw t
    exact ⟨h.1, by rw [length_participants]; exact h.2⟩
  · intro w t cs envs hEmpty hn hlen _
    match cs, hn, hlen with
    | a :: b :: rest, hn, _ =>
      dsimp only
      obtain ⟨hp, hsa, hsb, hsr, hwr⟩ := run_joins_empty t envs a b rest w hEmpty hn
      generalize w.run (List.map (fun c => joinAction t (envs c) c) (a :: b :: rest)) = r
        at hp hsa hsb hsr hwr ⊢
      rw [List.nodup_cons, List.nodup_cons] at hn
      obtain ⟨ha, hb, hrest⟩ := hn
      have hab : a ≠ b := fun e => ha (e ▸ List.mem_cons_self _ _)
      have har : a ∉ rest := fun h => ha (List.mem_cons_of_mem _ h)
      have hwto : ∀ c, writesTo c r.2
          = if c ∈ rest then [errorMessage "Topic is full"] else [] :=
        fun c => writesTo_uniform c r.2 rest _ hwr hrest
      have hne : ([] : List Message) ≠ [errorMessage "Topic is full"] := by simp
      refine ⟨?_, ?_, ?_, ?_, ?_⟩
      · have hnone : rest.filter (fun c => (r.1.sessions c).running) = [] := by
          rw [List.filter_eq_nil_iff]
          intro c hc
          simp [hsr c hc]
        simp [List.filter_cons, hsa, hsb, hnone]
      · have hall : rest.filter (fun c =>
            decide (writesTo c r.2 = [⟨"error", "", "", "Topic is full"⟩])) = rest := by
          rw [List.filter_eq_self]
          intro c hc
          simp [hwto c, hc, errorMessage]
        have hwa : writesTo a r.2 = [] := by rw [hwto a, if_neg har]
        have hwb : writesTo b r.2 = [] := by rw [hwto b, if_neg hb]
        simp [List.filter_cons, hwa, hwb, hall]
      · intro c hc hrun
        have hcab : c = a ∨ c = b := by
          rcases List.mem_cons.1 hc with e | e
          · exact Or.inl e
          · rcases List.mem_cons.1 e with e2 | e2
            · exact Or.inr e2
            · rw [hsr c e2] at hrun
              exact absurd hrun (by simp)
        rcases hcab with e | e
        · subst e
          exact ⟨by rw [hsa], by rw [hp]; simp, by rw [hwto c, if_neg har]⟩
        · subst e
          exact ⟨by rw [hsb], by rw [hp]; simp, by rw [hwto c, if_neg hb]⟩
      · intro c hc hrun
        have hcr : c ∈ rest := by
          rcases List.mem_cons.1 hc with e | e
          · subst e
            rw [hsa] at hrun
            exact absurd hrun (by simp)
          · rcases List.mem_cons.1 e with e2 | e2
            · subst e2
              rw [hsb] at hrun
              exact absurd hrun (by simp)
            · exact e2
        refine ⟨by rw [hwto c, if_pos hcr]; rfl, ?_⟩
        rw [hp]
        intro hmem
        rcases List.mem_cons.1 hmem with e | e
        · exact har (e ▸ hcr)
        · rw [List.mem_singleton] at e
          exact hb (e ▸ hcr)
      · rw [hp]
        rfl

theorem room_capacity_invariant_witness :
    (∀ t, (participants ((World.init.step (joinAction "T" ⟨true, fun _ => true, []⟩ 1)).1.step
            (joinAction "T" ⟨true, fun _ => true, []⟩ 2)).1.connections t).Nodup
          ∧ (participants ((World.init.step (joinAction "T" ⟨true, fun _ => true, []⟩ 1)).1.step
            (joinAction "T" ⟨true, fun _ => true, []⟩ 2)).1.connections t).length ≤ 2)
      ∧ (let r := World.init.run
            ([1, 2, 3].map (fun c => joinAction "T" ⟨true, fun _ => true, []⟩ c))
         ([1, 2, 3].filter (fun c => (r.1.sessions c).running)).length = 2
          ∧ ([1, 2, 3].filter (fun c =>
                decide (writesTo c r.2 = [⟨"error", "", "", "Topic is full"⟩]))).length
              = [1, 2, 3].length - 2
          ∧ (∀ c ∈ [1, 2, 3], (r.1.sessions c).running = true
                → (r.1.sessions c).currentTopic = "T"
                  ∧ c ∈ participants r.1.connections "T"
                  ∧ writesTo c r.2 = [])
          ∧ (∀ c ∈ [1, 2, 3], (r.1.sessions c).running = false
                → writesTo c r.2 = [⟨"error", "", "", "Topic is full"⟩]
                  ∧ c ∉ participants r.1.connections "T")
          ∧ (participants r.1.connections "T").length = 2) :=
  ⟨room_capacity_invariant.1 _
      (Reachable.step _ _ (Reachable.step _ _ Reachable.init (by decide)) (by decide)),
    room_capacity_invariant.2 World.init "T" [1, 2, 3] (fun _ => ⟨true, fun _ => true, []⟩)
      (by decide) (by decide) (by decide) (fun _ _ => rfl)⟩

/-! ## Disconnection -/

theorem mapDelete_length_lt {κ ν : Type} [DecidableEq κ] (m : List (κ × ν)) {k : κ}
    (h : k ∈ mapKeys m) : (mapDelete m k).length < m.length := by
  induction m with
  | nil => simp [mapKeys] at h
  | cons p rest ih =>
    obtain ⟨a, b⟩ := p
    by_cases hak : a = k
    · have := mapDelete_length_le rest k
      simp only [mapDelete, hak, if_true, List.length_cons]
      omega
    · have h2 : k ∈ mapKeys rest := by
        simp only [mapKeys, List.map_cons, List.mem_cons] at h
        rcases h with e | e
        · exact absurd e.symm hak
        · exact e
      have := ih h2
      simp only [mapDelete, hak, if_false, List.length_cons]
      omega

theorem loopBody_readError_joined (conn : Conn) (env : Env) (connections : Registry)
    (currentTopic : String) (hTopic : currentTopic ≠ "") :
    loopBody conn env connections currentTopic Input.readError
      = ⟨remove connections currentTopic conn, currentTopic,
          [Ev.println "Error while reading message:", Ev.lock, Ev.mapRead currentTopic,
            Ev.mapWrite currentTopic, Ev.unlock, Ev.close conn], false⟩ := by
  simp [loopBody, hTopic]

theorem loopBody_readError_unset (conn : Conn) (env : Env) (connections : Registry)
    (currentTopic : String) (hTopic : currentTopic = "") :
    loopBody conn env connections currentTopic Input.readError
      = ⟨connections, currentTopic,
          [Ev.println "Error while reading message:", Ev.close conn], false⟩ := by
  simp [loopBody, hTopic]

/-- C11, as stated, fails: connection 1 sends `setTopic` with an empty topic from process
start and is registered under the empty name with `currentTopic` empty; this world is
reachable and 1 is a participant of its `currentTopic`. On a read error the guard
`currentTopic != ""` skips the delete: the handler of 1 ends and 1 is still a participant
of the empty topic. -/
theorem disconnect_empty_topic_counterexample :
    Reachable (World.init.step (joinAction "" ⟨true, fun _ => true, []⟩ 1)).1
      ∧ ((World.init.step (joinAction "" ⟨true, fun _ => true, []⟩ 1)).1.sessions 1)
          = ⟨"", true⟩
      ∧ 1 ∈ participants
          (World.init.step (joinAction "" ⟨true, fun _ => true, []⟩ 1)).1.connections ""
      ∧ (((World.init.step (joinAction "" ⟨true, fun _ => true, []⟩ 1)).1.step
          ⟨1, ⟨true, fun _ => true, [1]⟩, Input.readError⟩).1.sessions 1).running = false
      ∧ 1 ∈ participants
          ((World.init.step (joinAction "" ⟨true, fun _ => true, []⟩ 1)).1.step
            ⟨1, ⟨true, fun _ => true, [1]⟩, Input.readError⟩).1.connections "" :=
  ⟨Reachable.step _ _ Reachable.init (by decide), by decide, by decide, by decide, by decide⟩

/-- C11, amended. Disconnect is an implicit leave from a non-empty topic: in every
reachable world in which the running handler of `A` has a non-empty `currentTopic` `T` and
`A` is a participant of `T`, a read error on `A` removes `A` from the participants of `T`,
leaves every other entry of `T` and every other topic as they were, writes nothing, ends
the handler of `A` and touches no other handler; the world after it is reachable and `T`
is left with at most one participant, so a `setTopic` for `T` read afterwards from any
other connection is accepted. -/
theorem disconnect_leaves (w : World) (A : Conn) (env : Env) (hReach : Reachable w)
    (hRun : (w.sessions A).running = true)
    (hOrder : RangeOrder w.connections (w.sessions A).currentTopic env.order)
    (hTopic : (w.sessions A).currentTopic ≠ "")
    (hJoined : A ∈ participants w.connections (w.sessions A).currentTopic) :
    let T := (w.sessions A).currentTopic
    let s := w.step ⟨A, env, Input.readError⟩
    Reachable s.1
      ∧ A ∉ participants s.1.connections T
      ∧ (∀ c, c ≠ A → mapGet (room s.1.connections T) c = mapGet (room w.connections T) c)
      ∧ (∀ t, t ≠ T → mapGet s.1.connections t = mapGet w.connections t)
      ∧ writes s.2 = []
      ∧ (s.1.sessions A).running = false
      ∧ (∀ c, c ≠ A → s.1.sessions c = w.sessions c)
      ∧ (participants s.1.connections T).length ≤ 1
      ∧ (∀ (B : Conn) (env2 : Env), B ≠ A →
          writes (s.1.step (joinAction T env2 B)).2 = []
            ∧ (s.1.step (joinAction T env2 B)).1.sessions B = ⟨T, true⟩
            ∧ B ∈ participants (s.1.step (joinAction T env2 B)).1.connections T) := by
  intro T s
  have hr := loopBody_readError_joined A env w.connections T hTopic
  have hconn : s.1.connections = remove w.connections T A := by
    show (loopBody A env w.connections T Input.readError).connections = _
    rw [hr]
  have hroom : room s.1.connections T = mapDelete (room w.connections T) A := by
    rw [hconn, room_remove]; simp
  have hlen : (room s.1.connections T).length < 2 := by
    have h1 := mapDelete_length_lt (room w.connections T) hJoined
    have h2 := (roomsBounded_reachable w hReach T).2
    rw [hroom]
    omega
  refine ⟨Reachable.step w _ hReach ⟨hRun, hOrder⟩, ?_, ?_, ?_, ?_, ?_, ?_, ?_, ?_⟩
  · unfold participants
    rw [hroom, mem_mapKeys_mapDelete]
    exact fun h => h.2 rfl
  · intro c hc
    rw [hroom]
    exact mapGet_mapDelete_of_ne _ hc
  · intro t ht
    rw [hconn]
    exact mapGet_remove_of_ne w.connections A ht
  · show writes (loopBody A env w.connections T Input.readError).trace = _
    rw [hr]
    simp [writes]
  · show ((if A = A then (⟨(loopBody A env w.connections T Input.readError).currentTopic,
        (loopBody A env w.connections T Input.readError).running⟩ : Session)
        else w.sessions A)).running = false
    rw [hr]
    simp
  · intro c hc
    show (if c = A then _ else w.sessions c) = w.sessions c
    rw [if_neg hc]
  · rw [length_participants]
    omega
  · intro B env2 _
    obtain ⟨r1, r2, _, r4⟩ := step_join_free s.1 T env2 B hlen
    refine ⟨r4, r2, ?_⟩
    unfold participants
    rw [r1, mem_mapKeys_mapSet]
    exact Or.inr rfl

theorem reachable_pair : Reachable World.pair :=
  Reachable.step _ _ (Reachable.step _ _ Reachable.init (by decide)) (by decide)

theorem disconnect_leaves_witness :
    Reachable World.pair
      ∧ (World.pair.sessions 1).running = true
      ∧ RangeOrder World.pair.connections (World.pair.sessions 1).currentTopic [2, 1]
      ∧ (World.pair.sessions 1).currentTopic ≠ ""
      ∧ 1 ∈ participants World.pair.connections (World.pair.sessions 1).currentTopic
      ∧ (let T := (World.pair.sessions 1).currentTopic
         let s := World.pair.step ⟨1, Env.allOk [2, 1], Input.readError⟩
         Reachable s.1
          ∧ 1 ∉ participants s.1.connections T
          ∧ (∀ c, c ≠ 1
              → mapGet (room s.1.connections T) c = mapGet (room World.pair.connections T) c)
          ∧ (∀ t, t ≠ T → mapGet s.1.connections t = mapGet World.pair.connections t)
          ∧ writes s.2 = []
          ∧ (s.1.sessions 1).running = false
          ∧ (∀ c, c ≠ 1 → s.1.sessions c = World.pair.sessions c)
          ∧ (participants s.1.connections T).length ≤ 1
          ∧ (∀ (B : Conn) (env2 : Env), B ≠ 1 →
              writes (s.1.step (joinAction T env2 B)).2 = []
                ∧ (s.1.step (joinAction T env2 B)).1.sessions B = ⟨T, true⟩
                ∧ B ∈ participants (s.1.step (joinAction T env2 B)).1.connections T)) :=
  ⟨reachable_pair, by decide, by decide, by decide, by decide,
    disconnect_leaves World.pair 1 (Env.allOk [2, 1]) reachable_pair (by decide) (by decide)
      (by decide) (by decide)⟩

/-! ## Topics per connection -/

/-- An iteration adds at most one registration: that of its own connection under the topic
of a `setTopic` it reads. Every other registration afterwards was there before. -/
theorem mem_participants_loopBody (conn : Conn) (env : Env) (connections : Registry)
    (currentTopic : String) (input : Input) (c : Conn) (t : String)
    (h : c ∈ participants (loopBody conn env connections currentTopic input).connections t) :
    c ∈ participants connections t
      ∨ (c = conn ∧ ∃ m, input = Input.parsed m ∧ m.type = "setTopic" ∧ m.topic = t) := by
  cases input with
  | readError =>
    by_cases ht : currentTopic = ""
    · rw [loopBody_readError_unset conn env connections currentTopic ht] at h
      exact Or.inl h
    · rw [loopBody_readError_joined conn env connections currentTopic ht] at h
      left
      simp only [participants, room_remove] at h
      by_cases hq : t = currentTopic
      · rw [if_pos hq, mem_mapKeys_mapDelete] at h
        rw [hq]
        exact h.1
      · rw [if_neg hq] at h
        exact h
  | malformed => exact Or.inl (by simpa [loopBody] using h)
  | parsed message =>
    by_cases h1 : message.type = "setTopic"
    · by_cases hfull : 2 ≤ (room connections message.topic).length
      · rw [loopBody_setTopic_full conn env connections currentTopic message h1 hfull] at h
        exact Or.inl h
      · rw [loopBody_setTopic_join conn env connections currentTopic message h1 (by omega)] at h
        simp only [participants, room_assign, room_ensureRoom] at h
        by_cases hq : t = message.topic
        · rw [if_pos hq, mem_mapKeys_mapSet] at h
          rcases h with h | h
          · left
            rw [hq]
            exact h
          · exact Or.inr ⟨h, message, rfl, h1, hq.symm⟩
        · rw [if_neg hq] at h
          exact Or.inl h
    · left
      by_cases h2 : message.type = "setUsername"
      · cases hin : (mapGet (room connections message.topic) conn).isSome with
        | true =>
          rw [loopBody_setUsername_found conn env connections currentTopic message h2 hin] at h
          simp only [participants, room_assign] at h
          by_cases hq : t = message.topic
          · rw [if_pos hq, mem_mapKeys_mapSet] at h
            rw [hq]
            rcases h with h | h
            · exact h
            · rw [h]
              exact (mem_mapKeys_iff _ _).2 hin
          · rw [if_neg hq] at h
            exact h
        | false =>
          rw [loopBody_setUsername_missing conn env connections currentTopic message h2 hin] at h
          exact h
      · by_cases h3 : message.type = "message"
        · by_cases ht : currentTopic = ""
          · rw [loopBody_message_unset conn env connections currentTopic message h3 ht] at h
            exact h
          · rw [loopBody_message_joined conn env connections currentTopic message h3 ht] at h
            by_cases hq : t = currentTopic
            · subst hq
              exact ((broadcast_participants _ _ _ _ _ _ _).1 h).1
            · simp only [participants, room] at h
              rw [broadcast_other_topic _ _ _ _ _ _ hq] at h
              exact h
        · rw [loopBody_unknown conn env connections currentTopic message h1 h2 h3] at h
          exact h

theorem mem_mapKeys_of_participant (connections : Registry) (c : Conn) (t : String)
    (h : c ∈ participants connections t) : t ∈ mapKeys connections := by
  by_contra hn
  have hnone : mapGet connections t = none := (mapGet_eq_none_iff connections t).2 hn
  simp [participants, room, hnone, mapKeys] at h

theorem registeredElsewhere_eq_true_iff (connections : Registry) (c : Conn) (t : String) :
    registeredElsewhere connections c t = true
      ↔ ∃ q, q ≠ t ∧ c ∈ participants connections q := by
  unfold registeredElsewhere
  rw [List.any_eq_true]
  constructor
  · rintro ⟨q, _, hq⟩
    simp only [Bool.and_eq_true, decide_eq_true_eq] at hq
    exact ⟨q, hq.1, hq.2⟩
  · rintro ⟨q, hne, hq⟩
    refine ⟨q, mem_mapKeys_of_participant connections c q hq, ?_⟩
    simp only [Bool.and_eq_true, decide_eq_true_eq]
    exact ⟨hne, hq⟩

/-- An iteration that is not a switch keeps every connection in at most one room. -/
theorem oneTopic_step (w : World) (a : Action)
    (hInv : ∀ c t1 t2, c ∈ participants w.connections t1 → c ∈ participants w.connections t2
      → t1 = t2)
    (hNo : switchesTopic w a = false) :
    ∀ c t1 t2, c ∈ participants (w.step a).1.connections t1
      → c ∈ participants (w.step a).1.connections t2 → t1 = t2 := by
  have hstep : ∀ c t, c ∈ participants (w.step a).1.connections t →
      c ∈ participants w.connections t
        ∨ (c = a.conn ∧ ∃ m, a.input = Input.parsed m ∧ m.type = "setTopic" ∧ m.topic = t) :=
    fun c t h => mem_participants_loopBody a.conn a.env w.connections
      (w.sessions a.conn).currentTopic a.input c t h
  have hmix : ∀ c t1 t2, c ∈ participants w.connections t1
      → c ∈ participants (w.step a).1.connections t2
      → (c = a.conn ∧ ∃ m, a.input = Input.parsed m ∧ m.type = "setTopic" ∧ m.topic = t2)
      → t1 = t2 := by
    rintro c t1 t2 h1 h2 ⟨hc, m, hm, hty, ht2⟩
    by_cases hfull : 2 ≤ (room w.connections m.topic).length
    · have hsame : (w.step a).1.connections = w.connections := by
        show (loopBody a.conn a.env w.connections (w.sessions a.conn).currentTopic
          a.input).connections = _
        rw [hm, loopBody_setTopic_full a.conn a.env w.connections _ m hty hfull]
      rw [hsame] at h2
      exact hInv c t1 t2 h1 h2
    · have hfree : (room w.connections m.topic).length < 2 := by omega
      have hnot : registeredElsewhere w.connections a.conn m.topic = false := by
        simpa [switchesTopic, hm, hty, hfree] using hNo
      by_contra hne
      have htrue : registeredElsewhere w.connections a.conn m.topic = true :=
        (registeredElsewhere_eq_true_iff _ _ _).2 ⟨t1, by rw [ht2]; exact hne, hc ▸ h1⟩
      rw [hnot] at htrue
      exact absurd htrue (by decide)
  intro c t1 t2 h1 h2
  rcases hstep c t1 h1 with e1 | n1
  · rcases hstep c t2 h2 with e2 | n2
    · exact hInv c t1 t2 e1 e2
    · exact hmix c t1 t2 e1 h2 n2
  · rcases hstep c t2 h2 with e2 | n2
    · exact (hmix c t2 t1 e2 h1 n1).symm
    · obtain ⟨_, m1, hm1, _, ht1⟩ := n1
      obtain ⟨_, m2, hm2, _, ht2⟩ := n2
      rw [hm1] at hm2
      injection hm2 with hm
      rw [← ht1, ← ht2, hm]

/-- Along a schedule without a switch every connection stays in at most one room. -/
theorem oneTopic_run (schedule : List Action) (w : World)
    (hInv : ∀ c t1 t2, c ∈ participants w.connections t1 → c ∈ participants w.connections t2
      → t1 = t2)
    (hNo : noSwitch w schedule = true) :
    ∀ c t1 t2, c ∈ participants (w.run schedule).1.connections t1
      → c ∈ participants (w.run schedule).1.connections t2 → t1 = t2 := by
  induction schedule generalizing w with
  | nil => exact hInv
  | cons a rest ih =>
    simp only [noSwitch, Bool.and_eq_true, Bool.not_eq_true'] at hNo
    rw [run_cons]
    exact ih (w.step a).1 (oneTopic_step w a hInv hNo.1) hNo.2

/-- A switch does put its connection in two rooms: the one it was registered under and the
one it joins. So the schedules without a switch are exactly those that keep every
connection in at most one room at every moment. -/
theorem switch_registers_twice (w : World) (a : Action) (h : switchesTopic w a = true) :
    ∃ t1 t2, t1 ≠ t2 ∧ a.conn ∈ participants (w.step a).1.connections t1
      ∧ a.conn ∈ participants (w.step a).1.connections t2 := by
  obtain ⟨conn, env, input⟩ := a
  cases input with
  | readError => simp [switchesTopic] at h
  | malformed => simp [switchesTopic] at h
  | parsed m =>
    simp only [switchesTopic, Bool.and_eq_true, decide_eq_true_eq] at h
    obtain ⟨⟨hty, hfree⟩, hreg⟩ := h
    obtain ⟨q, hne, hq⟩ := (registeredElsewhere_eq_true_iff _ _ _).1 hreg
    have hr := loopBody_setTopic_join conn env w.connections (w.sessions conn).currentTopic m
      hty hfree
    have hconn : (World.step w ⟨conn, env, Input.parsed m⟩).1.connections
        = assign (ensureRoom w.connections m.topic) m.topic conn "" := by
      show (loopBody conn env w.connections (w.sessions conn).currentTopic
        (Input.parsed m)).connections = _
      rw [hr]
    refine ⟨q, m.topic, hne, ?_, ?_⟩
    · show conn ∈ participants (World.step w ⟨conn, env, Input.parsed m⟩).1.connections q
      rw [hconn]
      simp only [participants, room_assign, room_ensureRoom, if_neg hne]
      exact hq
    · show conn ∈ participants (World.step w ⟨conn, env, Input.parsed m⟩).1.connections m.topic
      rw [hconn]
      simp only [participants, room_assign, room_ensureRoom, if_true]
      exact (mem_mapKeys_mapSet _ _ _ _).2 (Or.inr rfl)

/-- C12, as stated, fails: from process start connection 1 sends `setTopic` "A" and then
`setTopic` "B"; both are accepted, the second does not remove the first registration, and
in the reachable world that results connection 1 is a participant of "A" and of "B". -/
theorem two_topics_counterexample :
    Reachable ((World.init.step (joinAction "A" (Env.allOk []) 1)).1.step
        (joinAction "B" (Env.allOk [1]) 1)).1
      ∧ 1 ∈ participants ((World.init.step (joinAction "A" (Env.allOk []) 1)).1.step
          (joinAction "B" (Env.allOk [1]) 1)).1.connections "A"
      ∧ 1 ∈ participants ((World.init.step (joinAction "A" (Env.allOk []) 1)).1.step
          (joinAction "B" (Env.allOk [1]) 1)).1.connections "B"
      ∧ "A" ≠ "B" :=
  ⟨Reachable.step _ _ (Reachable.step _ _ Reachable.init (by decide)) (by decide),
    by decide, by decide, by decide⟩

/-- C12, amended. One topic per connection as long as it does not switch: in the world
reached from process start by any schedule of handler iterations (any handlers, any
inputs, any write outcomes) in which no connection has a `setTopic` accepted for a topic
while it is registered under a different topic, each connection is a participant of at
most one topic; repeated `setTopic` frames for the same topic are allowed. -/
theorem one_topic_per_connection (schedule : List Action)
    (hNo : noSwitch World.init schedule = true) :
    ∀ c t1 t2, c ∈ participants (World.init.run schedule).1.connections t1
      → c ∈ participants (World.init.run schedule).1.connections t2 → t1 = t2 := by
  apply oneTopic_run schedule World.init _ hNo
  intro c t1 t2 h1 _
  simp [World.init, participants, room, mapGet, mapKeys] at h1

theorem one_topic_per_connection_witness :
    noSwitch World.init [joinAction "T" (Env.allOk []) 1, joinAction "T" (Env.allOk [1]) 1,
        joinAction "T" (Env.allOk [1]) 1, joinAction "T" (Env.allOk []) 2,
        ⟨1, Env.allOk [1, 2], Input.parsed ⟨"setUsername", "T", "", "alice"⟩⟩] = true
      ∧ (∀ c t1 t2,
          c ∈ participants (World.init.run [joinAction "T" (Env.allOk []) 1,
            joinAction "T" (Env.allOk [1]) 1, joinAction "T" (Env.allOk [1]) 1,
            joinAction "T" (Env.allOk []) 2,
            ⟨1, Env.allOk [1, 2], Input.parsed ⟨"setUsername", "T", "", "alice"⟩⟩]).1.connections
              t1
          → c ∈ participants (World.init.run [joinAction "T" (Env.allOk []) 1,
            joinAction "T" (Env.allOk [1]) 1, joinAction "T" (Env.allOk [1]) 1,
            joinAction "T" (Env.allOk []) 2,
            ⟨1, Env.allOk [1, 2], Input.parsed ⟨"setUsername", "T", "", "alice"⟩⟩]).1.connections
              t2
          → t1 = t2) :=
  ⟨by decide, one_topic_per_connection _ (by decide)⟩

/-! ## Which violations end the handler -/

theorem handlerLoop_cons_stop (conn : Conn) (env : Env) (input : Input)
    (rest : List (Env × Input)) (connections : Registry) (currentTopic : String)
    (h : (loopBody conn env connections currentTopic input).running = false) :
    handlerLoop conn ((env, input) :: rest) connections currentTopic
      = loopBody conn env connections currentTopic input := by
  simp [handlerLoop, h]

theorem handlerLoop_cons_go (conn : Conn) (env : Env) (input : Input)
    (rest : List (Env × Input)) (connections : Registry) (currentTopic : String)
    (h : (loopBody conn env connections currentTopic input).running = true) :
    handlerLoop conn ((env, input) :: rest) connections currentTopic
      = ⟨(handlerLoop conn rest (loopBody conn env connections currentTopic input).connections
            (loopBody conn env connections currentTopic input).currentTopic).connections,
          (handlerLoop conn rest (loopBody conn env connections currentTopic input).connections
            (loopBody conn env connections currentTopic input).currentTopic).currentTopic,
          (loopBody conn env connections currentTopic input).trace
            ++ (handlerLoop conn rest (loopBody conn env connections currentTopic input).connections
              (loopBody conn env connections currentTopic input).currentTopic).trace,
          (handlerLoop conn rest (loopBody conn env connections currentTopic input).connections
            (loopBody conn env connections currentTopic input).currentTopic).running⟩ := by
  simp [handlerLoop, h]

/-- C13, as stated, fails: a fresh connection (empty map, no topic set) sends
`setUsername`; the handler replies with the error, closes the connection and leaves its
loop, so the `setTopic` the connection sends next is never read and the map stays
empty. -/
theorem setUsername_terminal_counterexample :
    (loopBody 1 (Env.allOk []) [] ""
        (Input.parsed ⟨"setUsername", "", "", "alice"⟩)).running = false
      ∧ closes (loopBody 1 (Env.allOk []) [] ""
          (Input.parsed ⟨"setUsername", "", "", "alice"⟩)).trace = [1, 1]
      ∧ handleConnection 1
          [(Env.allOk [], Input.parsed ⟨"setUsername", "", "", "alice"⟩),
            (Env.allOk [], Input.parsed ⟨"setTopic", "T", "", ""⟩)] []
          = ⟨[], "",
              [Ev.lock, Ev.mapRead "", Ev.writeJSON 1 ⟨"error", "", "", "Set a topic first"⟩,
                Ev.close 1, Ev.unlock, Ev.close 1], false⟩ := by
  decide

/-- C13, amended. Room-full and username-before-topic are terminal, message-before-topic
is not: (1) a `setTopic` for a topic with two participants and (2) a `setUsername` from a
connection registered under no topic both end the handler: the connection is closed and
whatever the connection sends next is never read; (3) a `message` read while
`currentTopic` is unset is answered with the error "Set a topic first", nothing is closed,
and the handler goes on to read the next intent of the connection from the same state. -/
theorem terminal_violations (conn : Conn) (env : Env) (connections : Registry)
    (currentTopic : String) (message : Message) (rest : List (Env × Input)) :
    (message.type = "setTopic" → 2 ≤ (participants connections message.topic).length →
        handlerLoop conn ((env, Input.parsed message) :: rest) connections currentTopic
            = loopBody conn env connections currentTopic (Input.parsed message)
          ∧ (loopBody conn env connections currentTopic (Input.parsed message)).running = false
          ∧ conn ∈ closes (loopBody conn env connections currentTopic
              (Input.parsed message)).trace)
      ∧ (message.type = "setUsername" → (∀ t, conn ∉ participants connections t) →
        handlerLoop conn ((env, Input.parsed message) :: rest) connections currentTopic
            = loopBody conn env connections currentTopic (Input.parsed message)
          ∧ (loopBody conn env connections currentTopic (Input.parsed message)).running = false
          ∧ conn ∈ closes (loopBody conn env connections currentTopic
              (Input.parsed message)).trace)
      ∧ (message.type = "message" → currentTopic = "" →
        handlerLoop conn ((env, Input.parsed message) :: rest) connections currentTopic
            = ⟨(handlerLoop conn rest connections "").connections,
                (handlerLoop conn rest connections "").currentTopic,
                Ev.writeJSON conn ⟨"error", "", "", "Set a topic first"⟩
                  :: (handlerLoop conn rest connections "").trace,
                (handlerLoop conn rest connections "").running⟩
          ∧ closes (loopBody conn env connections currentTopic
              (Input.parsed message)).trace = []) := by
  refine ⟨?_, ?_, ?_⟩
  · intro hType hFull
    have hr := loopBody_setTopic_full conn env connections currentTopic message hType
      (by rw [← length_participants]; exact hFull)
    have hstop : (loopBody conn env connections currentTopic
        (Input.parsed message)).running = false := by rw [hr]
    refine ⟨handlerLoop_cons_stop conn env _ rest connections currentTopic hstop, hstop, ?_⟩
    rw [hr]
    simp [closes]
  · intro hType hNowhere
    have hOut : (mapGet (room connections message.topic) conn).isSome = false := by
      have h := hNowhere message.topic
      unfold participants at h
      rw [mem_mapKeys_iff] at h
      simpa using h
    have hr := loopBody_setUsername_missing conn env connections currentTopic message
      hType hOut
    have hstop : (loopBody conn env connections currentTopic
        (Input.parsed message)).running = false := by rw [hr]
    refine ⟨handlerLoop_cons_stop conn env _ rest connections currentTopic hstop, hstop, ?_⟩
    rw [hr]
    simp [closes]
  · intro hType hUnset
    have hr := loopBody_message_unset conn env connections currentTopic message hType hUnset
    have hgo : (loopBody conn env connections currentTopic
        (Input.parsed message)).running = true := by rw [hr]
    refine ⟨?_, ?_⟩
    · rw [handlerLoop_cons_go conn env _ rest connections currentTopic hgo, hr]
      simp [errorMessage, hUnset]
    · rw [hr]
      simp [closes]

theorem terminal_violations_witness :
    (2 ≤ (participants [("T", [(1, "alice"), (2, "bob")])] "T").length
        ∧ (loopBody 3 (Env.allOk []) [("T", [(1, "alice"), (2, "bob")])] ""
            (Input.parsed ⟨"setTopic", "T", "", ""⟩)).running = false)
      ∧ ((∀ t, 1 ∉ participants [] t)
        ∧ (loopBody 1 (Env.allOk []) [] ""
            (Input.parsed ⟨"setUsername", "", "", "alice"⟩)).running = false)
      ∧ handlerLoop 1 [(Env.allOk [], Input.parsed ⟨"message", "", "", "hi"⟩),
            (Env.allOk [], Input.parsed ⟨"setTopic", "T", "", ""⟩)] [] ""
          = ⟨(handlerLoop 1 [(Env.allOk [], Input.parsed ⟨"setTopic", "T", "", ""⟩)] []
                "").connections,
              (handlerLoop 1 [(Env.allOk [], Input.parsed ⟨"setTopic", "T", "", ""⟩)] []
                "").currentTopic,
              Ev.writeJSON 1 ⟨"error", "", "", "Set a topic first"⟩
                :: (handlerLoop 1 [(Env.allOk [], Input.parsed ⟨"setTopic", "T", "", ""⟩)] []
                  "").trace,
              (handlerLoop 1 [(Env.allOk [], Input.parsed ⟨"setTopic", "T", "", ""⟩)] []
                "").running⟩ :=
  have hnone : ∀ t, 1 ∉ participants [] t := by
    intro t
    simp [participants, room, mapGet, mapKeys]
  ⟨⟨by decide,
      ((terminal_violations 3 (Env.allOk []) [("T", [(1, "alice"), (2, "bob")])] ""
        ⟨"setTopic", "T", "", ""⟩ []).1 rfl (by decide)).2.1⟩,
    ⟨hnone,
      ((terminal_violations 1 (Env.allOk []) [] "" ⟨"setUsername", "", "", "alice"⟩ []).2.1
        rfl hnone).2.1⟩,
    ((terminal_violations 1 (Env.allOk []) [] "" ⟨"message", "", "", "hi"⟩
      [(Env.allOk [], Input.parsed ⟨"setTopic", "T", "", ""⟩)]).2.2 rfl rfl).1⟩

/-! ## Unknown intents -/

/-- C14. Unknown intents are ignored: for every session state, shared map and parsed frame
whose type is none of "setTopic", "setUsername", "message", the iteration has no effect at
all: nothing is written, published or closed, `currentTopic` and the shared map are
unchanged, and the loop goes on. -/
theorem unknown_intent_ignored (conn : Conn) (env : Env) (connections : Registry)
    (currentTopic : String) (message : Message)
    (h1 : message.type ≠ "setTopic") (h2 : message.type ≠ "setUsername")
    (h3 : message.type ≠ "message") :
    let r := loopBody conn env connections currentTopic (Input.parsed message)
    r.trace = []
      ∧ writes r.trace = []
      ∧ publishes r.trace = []
      ∧ closes r.trace = []
      ∧ r.currentTopic = currentTopic
      ∧ r.connections = connections
      ∧ r.running = true := by
  intro r
  have hr : r = _ := loopBody_unknown conn env connections currentTopic message h1 h2 h3
  rw [hr]
  simp [writes, publishes, closes]

theorem unknown_intent_ignored_witness :
    (let r := loopBody 1 (Env.allOk [1, 2]) [("T", [(1, "alice"), (2, "bob")])] "T"
        (Input.parsed ⟨"error", "T", "alice", "hi"⟩)
     r.trace = []
      ∧ writes r.trace = []
      ∧ publishes r.trace = []
      ∧ closes r.trace = []
      ∧ r.currentTopic = "T"
      ∧ r.connections = [("T", [(1, "alice"), (2, "bob")])]
      ∧ r.running = true)
    ∧ (let r := loopBody 1 (Env.allOk []) [] "" (Input.parsed ⟨"", "", "", ""⟩)
       r.trace = []
        ∧ writes r.trace = []
        ∧ publishes r.trace = []
        ∧ closes r.trace = []
        ∧ r.currentTopic = ""
        ∧ r.connections = []
        ∧ r.running = true) :=
  ⟨unknown_intent_ignored 1 (Env.allOk [1, 2]) [("T", [(1, "alice"), (2, "bob")])] "T"
      ⟨"error", "T", "alice", "hi"⟩ (by decide) (by decide) (by decide),
    unknown_intent_ignored 1 (Env.allOk []) [] "" ⟨"", "", "", ""⟩
      (by decide) (by decide) (by decide)⟩

/-! ## Empty topic names -/

/-- C15, the code at the failing input: a fresh connection sends `setTopic` with an empty
(or absent) topic field on an empty map. The join is accepted and the connection is
registered under the empty name, while `currentTopic` stays the empty string that lines 48
and 90 take to mean "no topic": the `message` it sends next is refused with "Set a topic
first", and on a read error its registration is not deleted. -/
theorem empty_topic_registered :
    1 ∈ participants (handleConnection 1
        [(Env.allOk [], Input.parsed ⟨"setTopic", "", "", ""⟩)] []).connections ""
      ∧ (handleConnection 1
          [(Env.allOk [], Input.parsed ⟨"setTopic", "", "", ""⟩)] []).running = true
      ∧ writes (handleConnection 1
          [(Env.allOk [], Input.parsed ⟨"setTopic", "", "", ""⟩),
            (Env.allOk [1], Input.parsed ⟨"message", "", "", "hi"⟩)] []).trace
          = [(1, ⟨"error", "", "", "Set a topic first"⟩)]
      ∧ 1 ∈ participants (handleConnection 1
          [(Env.allOk [], Input.parsed ⟨"setTopic", "", "", ""⟩),
            (Env.allOk [1], Input.readError)] []).connections ""
      ∧ (handleConnection 1
          [(Env.allOk [], Input.parsed ⟨"setTopic", "", "", ""⟩),
            (Env.allOk [1], Input.readError)] []).running = false := by
  decide

/-! ## The mutex around map accesses and I/O -/

theorem lockAfter_append (held : Bool) (a b : List Ev) :
    lockAfter held (a ++ b) = lockAfter (lockAfter held a) b := by
  induction a generalizing held with
  | nil => rfl
  | cons e rest ih => cases e <;> simp [lockAfter, ih]

theorem accessesLocked_append (held : Bool) (a b : List Ev) :
    accessesLocked held (a ++ b)
      = (accessesLocked held a && accessesLocked (lockAfter held a) b) := by
  induction a generalizing held with
  | nil => simp [accessesLocked, lockAfter]
  | cons e rest ih => cases e <;> simp [accessesLocked, lockAfter, ih, Bool.and_assoc]

theorem ioWhileLocked_append (held : Bool) (a b : List Ev) :
    ioWhileLocked held (a ++ b)
      = ioWhileLocked held a ++ ioWhileLocked (lockAfter held a) b := by
  induction a generalizing held with
  | nil => simp [ioWhileLocked, lockAfter]
  | cons e rest ih => cases e <;> cases held <;> simp [ioWhileLocked, lockAfter, ih]

/-- The `range` loop runs with the mutex held throughout: the lock stays held, every map
access and every write of the loop is under it, and the loop publishes nothing. -/
theorem broadcast_lock (cur : String) (conn : Conn) (data : String) (ok : Conn → Bool)
    (order : List Conn) (connections : Registry) :
    lockAfter true (broadcast cur conn data ok order connections).2 = true
      ∧ accessesLocked true (broadcast cur conn data ok order connections).2 = true
      ∧ writes (ioWhileLocked true (broadcast cur conn data ok order connections).2)
          = writes (broadcast cur conn data ok order connections).2
      ∧ publishes (ioWhileLocked true (broadcast cur conn data ok order connections).2)
          = [] := by
  induction order generalizing connections with
  | nil => simp [broadcast_nil, lockAfter, accessesLocked, ioWhileLocked, writes, publishes]
  | cons client rest ih =>
    cases hc : ok client with
    | true =>
      obtain ⟨i1, i2, i3, i4⟩ := ih connections
      rw [broadcast_cons_ok cur conn data ok client rest connections hc]
      simp [lockAfter, accessesLocked, ioWhileLocked, writes, publishes, i1, i2, i3, i4]
    | false =>
      obtain ⟨i1, i2, i3, i4⟩ := ih (remove connections cur client)
      rw [broadcast_cons_fail cur conn data ok client rest connections hc]
      simp [lockAfter, accessesLocked, ioWhileLocked, writes, publishes, i1, i2, i3, i4]

/-- The mutex along one loop iteration, branch by branch: the iteration ends with the
mutex released; no publish is made under it; every write is made under it except in the
`message` branch taken with no topic set; every map access is made under it except in the
`message` branch taken with a topic set. -/
theorem lock_facts_loopBody (conn : Conn) (env : Env) (connections : Registry)
    (currentTopic : String) (input : Input) :
    lockAfter false (loopBody conn env connections currentTopic input).trace = false
      ∧ publishes (ioWhileLocked false
          (loopBody conn env connections currentTopic input).trace) = []
      ∧ ((¬ ∃ m, input = Input.parsed m ∧ m.type = "message" ∧ currentTopic = "")
          → writes (ioWhileLocked false (loopBody conn env connections currentTopic input).trace)
              = writes (loopBody conn env connections currentTopic input).trace)
      ∧ ((¬ ∃ m, input = Input.parsed m ∧ m.type = "message" ∧ currentTopic ≠ "")
          → accessesLocked false (loopBody conn env connections currentTopic input).trace
              = true) := by
  cases input with
  | readError =>
    by_cases ht : currentTopic = ""
    · rw [loopBody_readError_unset conn env connections currentTopic ht]
      simp [lockAfter, ioWhileLocked, accessesLocked, writes, publishes]
    · rw [loopBody_readError_joined conn env connections currentTopic ht]
      simp [lockAfter, ioWhileLocked, accessesLocked, writes, publishes]
  | malformed => simp [loopBody, lockAfter, ioWhileLocked, accessesLocked, writes, publishes]
  | parsed message =>
    by_cases h1 : message.type = "setTopic"
    · by_cases hfull : 2 ≤ (room connections message.topic).length
      · rw [loopBody_setTopic_full conn env connections currentTopic message h1 hfull]
        simp [lockAfter, ioWhileLocked, accessesLocked, writes, publishes]
      · rw [loopBody_setTopic_join conn env connections currentTopic message h1 (by omega)]
        cases (mapGet connections message.topic).isNone <;>
          simp [lockAfter, ioWhileLocked, accessesLocked, writes, publishes]
    · by_cases h2 : message.type = "setUsername"
      · cases hin : (mapGet (room connections message.topic) conn).isSome with
        | true =>
          rw [loopBody_setUsername_found conn env connections currentTopic message h2 hin]
          simp [lockAfter, ioWhileLocked, accessesLocked, writes, publishes]
        | false =>
          rw [loopBody_setUsername_missing conn env connections currentTopic message h2 hin]
          simp [lockAfter, ioWhileLocked, accessesLocked, writes, publishes]
      · by_cases h3 : message.type = "message"
        · by_cases ht : currentTopic = ""
          · rw [loopBody_message_unset conn env connections currentTopic message h3 ht]
            refine ⟨by simp [lockAfter], by simp [ioWhileLocked, publishes], ?_,
              by simp [accessesLocked]⟩
            intro hno
            exact absurd ⟨message, rfl, h3, ht⟩ hno
          · obtain ⟨b1, _, b3, b4⟩ := broadcast_lock currentTopic conn message.data env.writeOk
              env.order connections
            rw [loopBody_message_joined conn env connections currentTopic message h3 ht]
            refine ⟨?_, ?_, ?_, ?_⟩
            · cases env.publishOk <;> simp [lockAfter, lockAfter_append, b1]
            · cases env.publishOk <;>
                simp [ioWhileLocked, ioWhileLocked_append, lockAfter, b1, b4,
                  publishes_append, publishes]
            · intro _
              cases env.publishOk <;>
                simp [ioWhileLocked, ioWhileLocked_append, lockAfter, b1, b3,
                  writes_append, writes]
            · intro hno
              exact absurd ⟨message, rfl, h3, ht⟩ hno
        · rw [loopBody_unknown conn env connections currentTopic message h1 h2 h3]
          refine ⟨by simp [lockAfter], by simp [ioWhileLocked, publishes], ?_,
            by simp [accessesLocked]⟩
          intro _
          simp [ioWhileLocked]

/-- A whole handler run ends with the mutex released and never publishes under it. -/
theorem lock_facts_handlerLoop (conn : Conn) (reads : List (Env × Input))
    (connections : Registry) (currentTopic : String) :
    lockAfter false (handlerLoop conn reads connections currentTopic).trace = false
      ∧ publishes (ioWhileLocked false
          (handlerLoop conn reads connections currentTopic).trace) = [] := by
  induction reads generalizing connections currentTopic with
  | nil => simp [handlerLoop, lockAfter, ioWhileLocked, publishes]
  | cons p rest ih =>
    obtain ⟨env, input⟩ := p
    obtain ⟨l1, l2, _, _⟩ := lock_facts_loopBody conn env connections currentTopic input
    cases hrun : (loopBody conn env connections currentTopic input).running with
    | false =>
      rw [handlerLoop_cons_stop conn env input rest connections currentTopic hrun]
      exact ⟨l1, l2⟩
    | true =>
      rw [handlerLoop_cons_go conn env input rest connections currentTopic hrun]
      obtain ⟨i1, i2⟩ := ih (loopBody conn env connections currentTopic input).connections
        (loopBody conn env connections currentTopic input).currentTopic
      simp only [lockAfter_append, ioWhileLocked_append, publishes_append, l1, l2, i1, i2]
      exact ⟨trivial, rfl⟩

/-- C16, the code at the failing input: connection 1, joined to "T" as "alice", sends a
`message`. The first effect of the iteration is the read of `connections["T"][1]` that
builds the log payload (line 97), made before `mutex.Lock()` (line 104): not every access
to the shared map of this iteration is made with the mutex held. -/
theorem unlocked_username_read :
    (loopBody 1 (Env.allOk [1]) [("T", [(1, "alice")])] "T"
        (Input.parsed ⟨"message", "", "", "hi"⟩)).trace.take 3
        = [Ev.mapRead "T", Ev.sendMessage "T" "alice: hi", Ev.lock]
      ∧ accessesLocked false (loopBody 1 (Env.allOk [1]) [("T", [(1, "alice")])] "T"
          (Input.parsed ⟨"message", "", "", "hi"⟩)).trace = false := by
  decide

/-- Every `message` iteration of a handler with a topic set reads the shared map before it
takes the mutex. -/
theorem accessesLocked_message_joined (conn : Conn) (env : Env) (connections : Registry)
    (currentTopic : String) (message : Message)
    (hType : message.type = "message") (hTopic : currentTopic ≠ "") :
    accessesLocked false
      (loopBody conn env connections currentTopic (Input.parsed message)).trace = false := by
  rw [loopBody_message_joined conn env connections currentTopic message hType hTopic]
  simp [accessesLocked]

/-- C17, as stated, fails: connection 3 sends `setTopic` for the full topic "T"; the error
reply is written between `mutex.Lock()` and `mutex.Unlock()`. Likewise the one write of a
broadcast by connection 1, alone in "T", is made with the mutex held. -/
theorem write_under_lock_counterexample :
    ioWhileLocked false (loopBody 3 (Env.allOk []) [("T", [(1, "alice"), (2, "bob")])] ""
        (Input.parsed ⟨"setTopic", "T", "", ""⟩)).trace
        = [Ev.writeJSON 3 ⟨"error", "", "", "Topic is full"⟩]
      ∧ ioWhileLocked false (loopBody 1 (Env.allOk [1]) [("T", [(1, "alice")])] "T"
          (Input.parsed ⟨"message", "", "", "hi"⟩)).trace
          = [Ev.writeJSON 1 ⟨"message", "", "alice", "hi"⟩] := by
  decide

/-- C17, amended. No publish under the lock: (1) in the trace of every handler run the
mutex is never held while a record is published to the log sink; (2) the reply to a
`message` read with no topic set is written with the mutex released (that iteration does
no I/O under the mutex at all); (3) in every other iteration every write to a client
connection, in particular the error replies of `setTopic` and `setUsername` and the
broadcast writes of `message`, is made while the mutex is held. -/
theorem io_under_lock :
    (∀ (conn : Conn) (reads : List (Env × Input)) (connections : Registry)
        (currentTopic : String),
        publishes (ioWhileLocked false
          (handlerLoop conn reads connections currentTopic).trace) = [])
      ∧ (∀ (conn : Conn) (env : Env) (connections : Registry) (currentTopic : String)
          (message : Message), message.type = "message" → currentTopic = "" →
          ioWhileLocked false
            (loopBody conn env connections currentTopic (Input.parsed message)).trace = [])
      ∧ (∀ (conn : Conn) (env : Env) (connections : Registry) (currentTopic : String)
          (input : Input),
          (¬ ∃ m, input = Input.parsed m ∧ m.type = "message" ∧ currentTopic = "") →
          writes (ioWhileLocked false (loopBody conn env connections currentTopic input).trace)
            = writes (loopBody conn env connections currentTopic input).trace) := by
  refine ⟨?_, ?_, ?_⟩
  · intro conn reads connections currentTopic
    exact (lock_facts_handlerLoop conn reads connections currentTopic).2
  · intro conn env connections currentTopic message hType hUnset
    rw [loopBody_message_unset conn env connections currentTopic message hType hUnset]
    simp [ioWhileLocked]
  · intro conn env connections currentTopic input hno
    exact (lock_facts_loopBody conn env connections currentTopic input).2.2.1 hno

theorem io_under_lock_witness :
    publishes (ioWhileLocked false (handlerLoop 1
        [(Env.allOk [], Input.parsed ⟨"setTopic", "T", "", ""⟩),
          (Env.allOk [1], Input.parsed ⟨"message", "", "", "hi"⟩)] [] "").trace) = []
      ∧ ioWhileLocked false (loopBody 1 (Env.allOk []) [] ""
          (Input.parsed ⟨"message", "", "", "hi"⟩)).trace = []
      ∧ ((¬ ∃ m, Input.parsed ⟨"setUsername", "", "", "alice"⟩ = Input.parsed m
            ∧ m.type = "message" ∧ "" = "")
        ∧ writes (ioWhileLocked false (loopBody 1 (Env.allOk []) [] ""
            (Input.parsed ⟨"setUsername", "", "", "alice"⟩)).trace)
          = writes (loopBody 1 (Env.allOk []) [] ""
            (Input.parsed ⟨"setUsername", "", "", "alice"⟩)).trace) :=
  have hno : ¬ ∃ m, Input.parsed ⟨"setUsername", "", "", "alice"⟩ = Input.parsed m
      ∧ m.type = "message" ∧ "" = "" := by
    rintro ⟨m, hm, hty, _⟩
    injection hm with hm
    rw [← hm] at hty
    exact absurd hty (by decide)
  ⟨io_under_lock.1 1 _ [] "", io_under_lock.2.1 1 (Env.allOk []) [] "" _ rfl rfl,
    hno, io_under_lock.2.2 1 (Env.allOk []) [] "" _ hno⟩

/-! ## The username of a broadcast -/

/-- As long as the write to the sender itself does not fail, every message of the loop
carries the username the sender had when the loop began. -/
theorem broadcast_usernames_of_sender_ok (cur : String) (conn : Conn) (data : String)
    (ok : Conn → Bool) (order : List Conn) (connections : Registry)
    (hSender : ok conn = true) :
    ∀ p ∈ writes (broadcast cur conn data ok order connections).2,
      p.2.username = usernameOf connections cur conn := by
  induction order generalizing connections with
  | nil => intro p hp; simp [broadcast_nil, writes] at hp
  | cons client rest ih =>
    intro p hp
    cases hc : ok client with
    | true =>
      rw [broadcast_cons_ok cur conn data ok client rest connections hc] at hp
      simp only [writes, List.mem_cons] at hp
      rcases hp with e | e
      · subst e; rfl
      · exact ih _ p e
    | false =>
      have hne : conn ≠ client := by
        intro e
        rw [e, hc] at hSender
        exact absurd hSender (by decide)
      rw [broadcast_cons_fail cur conn data ok client rest connections hc] at hp
      simp only [writes, List.mem_cons] at hp
      rcases hp with e | e
      · subst e; rfl
      · rw [ih _ p e]
        exact usernameOf_remove_of_ne connections cur hne

/-- C18, the code at the failing input: connections 1 ("alice") and 2 ("bob") are in "T",
1 sends a `message`, `range` yields 1 before 2 and the write to 1 fails. The log payload
and the message written to 1 carry "alice"; 1 is then deleted from the room, line 106
reads `connections["T"][1]` again for the next client, and the message written to 2
carries the empty username. -/
theorem username_reread_after_delete :
    RangeOrder [("T", [(1, "alice"), (2, "bob")])] "T" [1, 2]
      ∧ publishes (loopBody 1 ⟨true, fun c => decide (c ≠ 1), [1, 2]⟩
          [("T", [(1, "alice"), (2, "bob")])] "T"
          (Input.parsed ⟨"message", "", "", "hi"⟩)).trace = [("T", "alice: hi")]
      ∧ writes (loopBody 1 ⟨true, fun c => decide (c ≠ 1), [1, 2]⟩
          [("T", [(1, "alice"), (2, "bob")])] "T"
          (Input.parsed ⟨"message", "", "", "hi"⟩)).trace
          = [(1, ⟨"message", "", "alice", "hi"⟩), (2, ⟨"message", "", "", "hi"⟩)] := by
  decide

/-! ## Joining a topic twice -/

/-- C19, as stated, fails: connection 1 is alone in "T" as "alice" and sends `setTopic`
"T" again. The join is accepted (nothing written, the loop goes on), and the room has one
participant before and one after: the assignment overwrote the entry of 1, whose username
is now empty. -/
theorem rejoin_counterexample :
    (participants [("T", [(1, "alice")])] "T").length = 1
      ∧ (loopBody 1 (Env.allOk [1]) [("T", [(1, "alice")])] "T"
          (Input.parsed ⟨"setTopic", "T", "", ""⟩)).running = true
      ∧ writes (loopBody 1 (Env.allOk [1]) [("T", [(1, "alice")])] "T"
          (Input.parsed ⟨"setTopic", "T", "", ""⟩)).trace = []
      ∧ (participants (loopBody 1 (Env.allOk [1]) [("T", [(1, "alice")])] "T"
          (Input.parsed ⟨"setTopic", "T", "", ""⟩)).connections "T").length = 1
      ∧ (loopBody 1 (Env.allOk [1]) [("T", [(1, "alice")])] "T"
          (Input.parsed ⟨"setTopic", "T", "", ""⟩)).connections = [("T", [(1, "")])] := by
  decide

/-- C19, amended. Each accepted join of a new participant adds one entry: whenever a
`setTopic` for `t` is accepted (the room of `t` has fewer than two participants), the
number of participants of `t` afterwards is one more than before when the connection was
not a participant of `t`, and the participants of `t` are unchanged (only the username of
the connection is reset to the empty string) when it already was one. -/
theorem accepted_join_count (conn : Conn) (env : Env) (connections : Registry)
    (currentTopic : String) (message : Message)
    (hType : message.type = "setTopic")
    (hRoom : (participants connections message.topic).length < 2) :
    let r := loopBody conn env connections currentTopic (Input.parsed message)
    r.running = true
      ∧ (conn ∉ participants connections message.topic →
          (participants r.connections message.topic).length
            = (participants connections message.topic).length + 1)
      ∧ (conn ∈ participants connections message.topic →
          participants r.connections message.topic = participants connections message.topic
            ∧ mapGet (room r.connections message.topic) conn = some "") := by
  intro r
  have hr : r = _ := loopBody_setTopic_join conn env connections currentTopic message hType
    (by rw [← length_participants]; exact hRoom)
  rw [hr]
  refine ⟨rfl, ?_, ?_⟩
  · intro hc
    simp only [participants, room_assign, room_ensureRoom, if_true]
    rw [mapKeys_mapSet_of_not_mem _ _ hc]
    simp
  · intro hc
    simp only [participants, room_assign, room_ensureRoom, if_true]
    exact ⟨mapKeys_mapSet_of_mem _ _ hc, mapGet_mapSet_self _ _ _⟩

theorem accepted_join_count_witness :
    (participants [("T", [(1, "alice")])] "T").length < 2
      ∧ 2 ∉ participants [("T", [(1, "alice")])] "T"
      ∧ 1 ∈ participants [("T", [(1, "alice")])] "T"
      ∧ (participants (loopBody 2 (Env.allOk []) [("T", [(1, "alice")])] ""
          (Input.parsed ⟨"setTopic", "T", "", ""⟩)).connections "T").length
          = (participants [("T", [(1, "alice")])] "T").length + 1
      ∧ (participants (loopBody 1 (Env.allOk [1]) [("T", [(1, "alice")])] "T"
          (Input.parsed ⟨"setTopic", "T", "", ""⟩)).connections "T"
            = participants [("T", [(1, "alice")])] "T"
          ∧ mapGet (room (loopBody 1 (Env.allOk [1]) [("T", [(1, "alice")])] "T"
              (Input.parsed ⟨"setTopic", "T", "", ""⟩)).connections "T") 1 = some "") :=
  ⟨by decide, by decide, by decide,
    (accepted_join_count 2 (Env.allOk []) [("T", [(1, "alice")])] ""
      ⟨"setTopic", "T", "", ""⟩ rfl (by decide)).2.1 (by decide),
    (accepted_join_count 1 (Env.allOk [1]) [("T", [(1, "alice")])] "T"
      ⟨"setTopic", "T", "", ""⟩ rfl (by decide)).2.2 (by decide)⟩

/-! ## Terminated handlers and the registry -/

/-- C20, the code at the failing input: from process start connections 1 and 2 join "T",
then 1 sends `setUsername` with data "alice" and no topic field. The handler of 1 finds no
entry under the empty topic, replies with the error, closes the connection and returns
(line 86) without the delete that the read-error path makes (line 50): the handler of 1
has ended, 1 is still a participant of "T", and connection 3, which then asks to join
"T", is turned away with "Topic is full". -/
theorem closed_connection_stays_registered :
    ((World.pair.step
        ⟨1, Env.allOk [1, 2], Input.parsed ⟨"setUsername", "", "", "alice"⟩⟩).1.sessions
          1).running = false
      ∧ closes (World.pair.step
          ⟨1, Env.allOk [1, 2], Input.parsed ⟨"setUsername", "", "", "alice"⟩⟩).2 = [1, 1]
      ∧ Reachable (World.pair.step
          ⟨1, Env.allOk [1, 2], Input.parsed ⟨"setUsername", "", "", "alice"⟩⟩).1
      ∧ 1 ∈ participants (World.pair.step
          ⟨1, Env.allOk [1, 2], Input.parsed ⟨"setUsername", "", "", "alice"⟩⟩).1.connections
            "T"
      ∧ writes ((World.pair.step
          ⟨1, Env.allOk [1, 2], Input.parsed ⟨"setUsername", "", "", "alice"⟩⟩).1.step
            (joinAction "T" (Env.allOk []) 3)).2 = [(3, ⟨"error", "", "", "Topic is full"⟩)] :=
  ⟨by decide, by decide, Reachable.step _ _ reachable_pair (by decide), by decide, by decide⟩

end Gosi
